import Mathlib

/-!
Shallow embedding of the market-state mirror and pool entities of the
repository (crates/defi-entities/src/market_state.rs, pool.rs and the
nonce-and-balance monitor of crates/defi-actors/src/accounts_monitor).

Machine integers (`Address`, `U256`, `u64`, slots, byte values) are modelled
as `Nat`; addresses and slots are only used as map keys and the claims do
not depend on their bit width.  Finite maps (`HashMap`, the `accounts`
cache of `revm`'s `CacheDB`) are modelled as functions into `Option`;
ordered maps (`BTreeMap`) that the code iterates over are modelled as
association lists with distinct keys (the `BTreeMap` representation
invariant).  `InMemoryDB = CacheDB<EmptyDB>`: the underlying `EmptyDB`
returns no account and zero storage for everything, which is reflected in
`loadAccount` below.  The `contracts` map and the `code_hash` field of
`revm` accounts are metadata derived from `code` that no claim observes,
so they are omitted from the embedding.
-/

/-- Pointwise update of a function-backed map. -/
def updMap {α : Type} (f : Nat → α) (k : Nat) (v : α) : Nat → α :=
  fun x => if x = k then v else f x

/-- `revm::primitives::AccountInfo` (code hash metadata omitted). -/
structure AccountInfo where
  balance : Nat
  nonce : Nat
  code : Option (List Nat)
deriving DecidableEq

/-- `revm::db::AccountState` (aliased `DbAccountState` in the source). -/
inductive DbAccountState where
  | NotExisting
  | Touched
  | StorageCleared
  | None
deriving DecidableEq, BEq

/-- `revm::db::DbAccount`: cached account info, state marker, cached storage. -/
structure DbAccount where
  info : AccountInfo
  account_state : DbAccountState
  storage : Nat → Option Nat

/-- `DbAccount::new_not_existing()`: default info, marker `NotExisting`. -/
def DbAccount.newNotExisting : DbAccount :=
  { info := { balance := 0, nonce := 0, code := none }
    account_state := .NotExisting
    storage := fun _ => none }

/-- `DbAccount::default()`: default info, marker `None` (the `#[default]`
variant of `revm`'s `AccountState`). -/
def DbAccount.defaultAccount : DbAccount :=
  { info := { balance := 0, nonce := 0, code := none }
    account_state := .None
    storage := fun _ => none }

/-- `revm::InMemoryDB = CacheDB<EmptyDB>`, restricted to its `accounts`
cache (the only part the claims observe). -/
structure InMemoryDB where
  accounts : Nat → Option DbAccount

/-- `CacheDB::load_account`: return the cached entry, or materialise a
`new_not_existing` entry (the underlying `EmptyDB` has no accounts). -/
def loadAccount (db : InMemoryDB) (address : Nat) : InMemoryDB × DbAccount :=
  match db.accounts address with
  | some acc => (db, acc)
  | none =>
    (⟨updMap db.accounts address (some DbAccount.newNotExisting)⟩, DbAccount.newNotExisting)

/-- `CacheDB::insert_account_info`: `entry().or_default().info = info`;
the existing marker and cached storage are kept. -/
def insertAccountInfo (db : InMemoryDB) (address : Nat) (info : AccountInfo) : InMemoryDB :=
  let acc := (db.accounts address).getD DbAccount.defaultAccount
  ⟨updMap db.accounts address (some { acc with info := info })⟩

/-- `CacheDB::insert_account_storage`: load the account (creating it when
absent) and set one storage slot. -/
def insertAccountStorage (db : InMemoryDB) (address slot value : Nat) : InMemoryDB :=
  let la := loadAccount db address
  ⟨updMap la.1.accounts address (some { la.2 with storage := updMap la.2.storage slot (some value) })⟩

/-- `alloy_rpc_types_trace::geth::AccountState`: one account's diff in a
`GethStateUpdate`.  `storage` is a `BTreeMap` iterated in order, modelled
as an association list. -/
structure AccountState where
  balance : Option Nat
  nonce : Option Nat
  code : Option (List Nat)
  storage : List (Nat × Nat)

/-- `MarketState` of `market_state.rs`. -/
structure MarketState where
  state_db : InMemoryDB
  force_insert_accounts : Nat → Bool
  read_only_cells : Nat → Nat → Bool

/-- `MarketState::is_account`. -/
def MarketState.is_account (s : MarketState) (address : Nat) : Bool :=
  (s.state_db.accounts address).isSome

/-- `MarketState::is_slot`. -/
def MarketState.is_slot (s : MarketState) (address slot : Nat) : Bool :=
  match s.state_db.accounts address with
  | some account => (account.storage slot).isSome
  | none => false

/-- The guard of `apply_account_info_btree` over the loaded account's
marker: `insert || ((NotExisting || None) && only_new)
|| (!only_new && (Touched || StorageCleared))`. -/
def infoCond (insert only_new : Bool) (st : DbAccountState) : Bool :=
  insert
    || ((st == .NotExisting || st == .None) && only_new)
    || (!only_new && (st == .Touched || st == .StorageCleared))

/-- The code merge of `apply_account_info_btree`: diff code shorter than 2
bytes (or absent) keeps the loaded account's code. -/
def mergeCode (diffCode : Option (List Nat)) (oldCode : Option (List Nat)) : Option (List Nat) :=
  match diffCode with
  | some c => if c.length < 2 then oldCode else some c
  | none => oldCode

/-- `MarketState::apply_account_info_btree`.  Loads the account, writes
merged info when the guard holds, then reloads and sets the marker to
`Touched` unconditionally. -/
def MarketState.apply_account_info_btree (s : MarketState) (address : Nat)
    (acc_state : AccountState) (insert only_new : Bool) : MarketState :=
  let la := loadAccount s.state_db address
  let db2 :=
    if infoCond insert only_new la.2.account_state then
      insertAccountInfo la.1 address
        { balance := acc_state.balance.getD 0
          nonce := acc_state.nonce.getD 0
          code := mergeCode acc_state.code la.2.info.code }
    else la.1
  let lb := loadAccount db2 address
  { s with state_db := ⟨updMap lb.1.accounts address (some { lb.2 with account_state := .Touched })⟩ }

/-- `MarketState::apply_account_storage`.  With `insert` every diff slot is
written; otherwise the account is loaded and cloned first and a diff slot
is written iff (present in the clone and `!only_new`) or (absent and
`only_new`). -/
def MarketState.apply_account_storage (s : MarketState) (address : Nat)
    (acc_state : AccountState) (insert only_new : Bool) : MarketState :=
  if insert then
    { s with state_db :=
        acc_state.storage.foldl (fun db sv => insertAccountStorage db address sv.1 sv.2) s.state_db }
  else
    let la := loadAccount s.state_db address
    { s with state_db :=
        acc_state.storage.foldl (fun db sv =>
          let is_slot := (la.2.storage sv.1).isSome
          if is_slot && !only_new then insertAccountStorage db address sv.1 sv.2
          else if !is_slot && only_new then insertAccountStorage db address sv.1 sv.2
          else db) la.1 }

/-- `MarketState::apply_state_update`: for each record of the vector and
each `(address, account_state)` of the record (in `BTreeMap` order), apply
the info merge then the storage merge. -/
def MarketState.apply_state_update (s : MarketState)
    (update_vec : List (List (Nat × AccountState))) (insert only_new : Bool) : MarketState :=
  update_vec.foldl (fun s record =>
    record.foldl (fun s ad =>
      (s.apply_account_info_btree ad.1 ad.2 insert only_new).apply_account_storage
        ad.1 ad.2 insert only_new) s) s

/-- `MarketState::disable_cell`: add the cell to `read_only_cells`. -/
def MarketState.disable_cell (s : MarketState) (address cell : Nat) : MarketState :=
  { s with read_only_cells :=
      fun a => if a = address then (fun c => if c = cell then true else s.read_only_cells a c)
               else s.read_only_cells a }

/-- `MarketState::is_read_only_cell`. -/
def MarketState.is_read_only_cell (s : MarketState) (address cell : Nat) : Bool :=
  s.read_only_cells address cell

/-- Iterable view of one account of the `other : InMemoryDB` argument of
`merge_db` (a `HashMap` the code iterates over). -/
structure DbAccountView where
  info : AccountInfo
  storage : List (Nat × Nat)
deriving DecidableEq

/-- Slot presence on the raw db (`is_slot` while `merge_db` mutates). -/
def dbSlot (db : InMemoryDB) (address slot : Nat) : Option Nat :=
  match db.accounts address with
  | some account => account.storage slot
  | none => none

/-- `MarketState::merge_db`: insert account info for absent accounts; for
every storage cell of `other` that is absent locally or differs, insert it.
The `!is_slot || storage(..) != value` test short-circuits, so the cached
value is only read when the slot is present. -/
def MarketState.merge_db (s : MarketState) (other : List (Nat × DbAccountView)) : MarketState :=
  other.foldl (fun s aacc =>
    let s1 :=
      if !(s.is_account aacc.1) then { s with state_db := insertAccountInfo s.state_db aacc.1 aacc.2.info }
      else s
    let db2 :=
      aacc.2.storage.foldl (fun db cv =>
        match dbSlot db aacc.1 cv.1 with
        | none => insertAccountStorage db aacc.1 cv.1 cv.2
        | some w => if w ≠ cv.2 then insertAccountStorage db aacc.1 cv.1 cv.2 else db)
        s1.state_db
    { s1 with state_db := db2 }) s

/-- Value of a storage slot as the claims observe it. -/
def storageAt (s : MarketState) (address slot : Nat) : Option Nat :=
  dbSlot s.state_db address slot

/-- Balance of an account as the claims observe it (0 for an absent account,
matching `EmptyDB`). -/
def balanceAt (s : MarketState) (address : Nat) : Nat :=
  match s.state_db.accounts address with
  | some account => account.info.balance
  | none => 0

/-- Marker of an account (`None` when absent, the `revm` default). -/
def markerAt (s : MarketState) (address : Nat) : DbAccountState :=
  match s.state_db.accounts address with
  | some account => account.account_state
  | none => .None

/-- Last value written for a slot by an in-order list of (slot, value)
writes, if any. -/
def lastVal : List (Nat × Nat) → Nat → Option Nat
  | [], _ => none
  | sv :: t, x =>
    match lastVal t x with
    | some v => some v
    | none => if sv.1 = x then some sv.2 else none

/-- Apply an in-order list of (slot, value) writes to a storage map. -/
def writeList (l : List (Nat × Nat)) (st : Nat → Option Nat) : Nat → Option Nat :=
  l.foldl (fun st sv => updMap st sv.1 (some sv.2)) st

/-- Effect of `apply_account_info_btree` on its own account entry: load
(materialising a `NotExisting` account when absent), merge the info when the
guard holds, set the marker to `Touched`. -/
def infoStep (insert only_new : Bool) (d : AccountState) (acc0 : Option DbAccount) : DbAccount :=
  let account := acc0.getD DbAccount.newNotExisting
  let acc1 :=
    if infoCond insert only_new account.account_state then
      { account with info :=
          { balance := d.balance.getD 0
            nonce := d.nonce.getD 0
            code := mergeCode d.code account.info.code } }
    else account
  { acc1 with account_state := .Touched }

/-- Presence test for a diff slot against the pre-loop clone, as in the
`insert = false` branch of `apply_account_storage`. -/
def slotCond (only_new : Bool) (account : DbAccount) (slot : Nat) : Bool :=
  let is_slot := (account.storage slot).isSome
  (is_slot && !only_new) || (!is_slot && only_new)

/-- Effect of `apply_account_storage` on an already-present account entry:
with `insert` every diff slot is written; otherwise exactly the diff slots
passing `slotCond` against the pre-loop clone are written. -/
def storageStep (insert only_new : Bool) (d : AccountState) (account : DbAccount) : DbAccount :=
  if insert then { account with storage := writeList d.storage account.storage }
  else
    let written := d.storage.filter (fun sv => slotCond only_new account sv.1)
    { account with storage := writeList written account.storage }

/-- Composite per-account effect of one `apply_state_update` item: info
merge then storage merge. -/
def applyFull (insert only_new : Bool) (d : AccountState) (acc0 : Option DbAccount) : DbAccount :=
  storageStep insert only_new d (infoStep insert only_new d acc0)

attribute [ext] AccountInfo DbAccount InMemoryDB MarketState

/-- The account-marker side condition under which the `insert=false,
only_new=false` mode re-applies the same info on a second pass. -/
def accStateOk (acc0 : Option DbAccount) : Prop :=
  match acc0 with
  | some acc => acc.account_state = .Touched ∨ acc.account_state = .StorageCleared
  | none => False

/-- Nonce of an account as the claims observe it. -/
def nonceAt (s : MarketState) (address : Nat) : Nat :=
  match s.state_db.accounts address with
  | some account => account.info.nonce
  | none => 0

/-- Code of an account as the claims observe it. -/
def codeAt (s : MarketState) (address : Nat) : Option (List Nat) :=
  match s.state_db.accounts address with
  | some account => account.info.code
  | none => none

/-- A sequence of `apply_state_update` calls, each with its own update
vector and flag pair. -/
def applySeq (s : MarketState)
    (calls : List (List (List (Nat × AccountState)) × Bool × Bool)) : MarketState :=
  calls.foldl (fun s c => s.apply_state_update c.1 c.2.1 c.2.2) s

/-- A `MarketState` around an empty `InMemoryDB`, as `MarketState::new`
builds it. -/
def emptyMarketState : MarketState :=
  { state_db := ⟨fun _ => none⟩
    force_insert_accounts := fun _ => false
    read_only_cells := fun _ _ => false }

/-- S1 scenario: account `0xA` (address 10) with balance 100 and storage
slot 1 = 10.  The marker is `Touched`, the marker every account has after
being populated through the mirror's own apply pipeline. -/
def s1Account : DbAccount :=
  { info := { balance := 100, nonce := 0, code := none }
    account_state := .Touched
    storage := updMap (fun _ => none) 1 (some 10) }

/-- S1 scenario starting state. -/
def s1Start : MarketState :=
  { emptyMarketState with state_db := ⟨updMap (fun _ => none) 10 (some s1Account)⟩ }

/-- S1 scenario diff: `{0xA: {balance: 200, storage{1:20, 2:30}}}`. -/
def s1Diff : AccountState :=
  { balance := some 200, nonce := none, code := none, storage := [(1, 20), (2, 30)] }

/-- A one-account diff setting only the balance (used against an absent
account to exhibit the marker-promotion effect). -/
def c2Diff : AccountState :=
  { balance := some 5, nonce := none, code := none, storage := [] }

/-- Start state for the read-only-cell scenario: account 7 with storage
slot 1 = 10. -/
def roStart : MarketState :=
  { emptyMarketState with state_db :=
      ⟨updMap (fun _ => none)
        7
        (some { info := { balance := 0, nonce := 0, code := none }
                account_state := .Touched
                storage := updMap (fun _ => none) 1 (some 10) })⟩ }

/-- Diff overwriting slot 1 of account 7. -/
def roDiff : AccountState :=
  { balance := none, nonce := none, code := none, storage := [(1, 99)] }

/-- Diff with balance, nonce and a ≥2-byte code (for the info-merge
scenario). -/
def c8Diff : AccountState :=
  { balance := some 3, nonce := some 4, code := some [1, 2, 3], storage := [] }

/-- Account info as the claims observe it (`None` when the account is
absent). -/
def infoAt (s : MarketState) (address : Nat) : Option AccountInfo :=
  (s.state_db.accounts address).map (fun a => a.info)

/-- Per-account effect of `merge_db`: keep (or, when absent, create with
the incoming info) the local account, then write every incoming storage
cell — writing a cell that already holds the same value is skipped by the
code but leaves the same map. -/
def mergeAccount (acc0 : Option DbAccount) (view : DbAccountView) : DbAccount :=
  let base :=
    match acc0 with
    | some acc => acc
    | none => { DbAccount.defaultAccount with info := view.info }
  { base with storage := writeList view.storage base.storage }

/-- A merge source with one already-present account (7) and one new
account (8). -/
def c7Other : List (Nat × DbAccountView) :=
  [(7, { info := { balance := 50, nonce := 1, code := none }, storage := [(1, 77), (3, 44)] }),
   (8, { info := { balance := 60, nonce := 2, code := none }, storage := [(2, 5)] })]

/-! ### Pool entities (`pool.rs`) -/

/-- `revm::primitives::Env`, opaque to every pool operation the claims
mention. -/
def Env : Type := Nat

/-- Modelled from the spec: `RequiredState`
(crates/defi-entities/src/required_state.rs is not under src/) — "a value
describing which `eth_call` results and storage slots must be pre-fetched
for a given pool"; `RequiredState::new()` builds the empty value. -/
structure RequiredState where
  calls : List (Nat × List Nat)
  slots : List (Nat × Nat)
deriving DecidableEq

/-- `RequiredState::new()`. -/
def RequiredState.new : RequiredState := ⟨[], []⟩

/-- The `Pool` trait as a capability record (the fields the claims use);
a `dyn Pool` trait object is a value of this type. -/
structure Pool where
  get_address : Nat
  calculate_out_amount : InMemoryDB → Env → Nat → Nat → Nat → Except String (Nat × Nat)
  calculate_in_amount : InMemoryDB → Env → Nat → Nat → Nat → Except String (Nat × Nat)
  can_flash_swap : Bool
  get_state_required : Except String RequiredState

/-- `EmptyPool`. -/
structure EmptyPool where
  address : Nat

/-- `EmptyPool::new`. -/
def EmptyPool.new (address : Nat) : EmptyPool := ⟨address⟩

/-- `impl Pool for EmptyPool`: both swap calculators return
`Err("NOT_IMPLEMENTED")`, flash swap is disabled, the required state is
`RequiredState::new()`. -/
def EmptyPool.toPool (p : EmptyPool) : Pool :=
  { get_address := p.address
    calculate_out_amount := fun _ _ _ _ _ => Except.error "NOT_IMPLEMENTED"
    calculate_in_amount := fun _ _ _ _ _ => Except.error "NOT_IMPLEMENTED"
    can_flash_swap := false
    get_state_required := Except.ok RequiredState.new }

/-- `PoolWrapper`: a shared handle on a `dyn Pool`. -/
structure PoolWrapper where
  pool : Pool

/-- `PoolWrapper::new`. -/
def PoolWrapper.new (pool : Pool) : PoolWrapper := ⟨pool⟩

/-- `PoolWrapper::empty`. -/
def PoolWrapper.empty (pool_address : Nat) : PoolWrapper :=
  PoolWrapper.new (EmptyPool.new pool_address).toPool

/-- `impl PartialEq for PoolWrapper`: compares `pool.get_address()` only. -/
def PoolWrapper.beq (w1 w2 : PoolWrapper) : Bool :=
  w1.pool.get_address == w2.pool.get_address

/-- `impl Ord for PoolWrapper`: `self.get_address().cmp(&other.get_address())`. -/
def PoolWrapper.cmp (w1 w2 : PoolWrapper) : Ordering :=
  compare w1.pool.get_address w2.pool.get_address

/-- `impl Hash for PoolWrapper`: only the address is fed to the hasher, so
the hash is `h (address)` for whatever hasher `h` is used. -/
def PoolWrapper.hashWith (h : Nat → Nat) (w : PoolWrapper) : Nat :=
  h w.pool.get_address

/-! ### Nonce-and-balance monitor (`accounts_monitor/accounts_actor.rs`) -/

/-- Modelled from the spec: one entry of `AccountNonceAndBalanceState`
(crates/defi-entities/src/account_nonce_balance.rs is not under src/):
"address → {nonce, balances: token→U256}". -/
structure NonceBalance where
  nonce : Nat
  balances : Nat → Nat

/-- Modelled from the spec: `AccountNonceAndBalanceState`; "monitored
addresses are an explicit subset". -/
structure AccountNonceAndBalanceState where
  accounts : Nat → Option NonceBalance
  monitored : Nat → Bool

/-- Modelled from the spec: `set_nonce` ("set nonce to tx.nonce"). -/
def NonceBalance.set_nonce (a : NonceBalance) (n : Nat) : NonceBalance :=
  { a with nonce := n }

/-- Modelled from the spec: `sub_balance` ("decrement balance by …");
`Nat` subtraction truncates at zero. -/
def NonceBalance.sub_balance (a : NonceBalance) (token amount : Nat) : NonceBalance :=
  { a with balances := fun t => if t = token then a.balances t - amount else a.balances t }

/-- Modelled from the spec: `add_balance` ("add value"). -/
def NonceBalance.add_balance (a : NonceBalance) (token amount : Nat) : NonceBalance :=
  { a with balances := fun t => if t = token then a.balances t + amount else a.balances t }

/-- Modelled from the spec: `is_monitored`. -/
def AccountNonceAndBalanceState.is_monitored (st : AccountNonceAndBalanceState) (address : Nat) : Bool :=
  st.monitored address

/-- Modelled from the spec: writing back the entry obtained through
`get_mut_account`. -/
def AccountNonceAndBalanceState.setAccount (st : AccountNonceAndBalanceState)
    (address : Nat) (acc : NonceBalance) : AccountNonceAndBalanceState :=
  { st with accounts := updMap st.accounts address (some acc) }

/-- One confirmed transaction as the monitor worker reads it.  `from_` and
`to_` are the sender (`tx.from`) and recipient (`tx.to`); fee fields are
`u128` values. -/
structure Transaction where
  from_ : Nat
  to_ : Option Nat
  max_fee_per_gas : Option Nat
  max_priority_fee_per_gas : Option Nat
  gas : Nat
  value : Nat
  nonce : Nat

/-- `u128` wrap-around bound for the fee arithmetic of the worker. -/
def U128_LIMIT : Nat := 2 ^ 128

/-- Per-transaction body of `nonce_and_balance_monitor_worker` (lines
65-81): if `tx.from` is monitored and tracked, subtract
`(max_fee_per_gas.unwrap() + max_priority_fee_per_gas.unwrap()) * gas +
value` (computed in `u128`, hence the modulus; `unwrap()` on a missing fee
panics, which the theorems exclude by hypothesis) from its ETH (token 0)
balance and set its nonce to `tx.nonce`; then, if `tx.to` is monitored and
tracked, add `value` to its ETH balance. -/
def nonce_and_balance_process_tx (accounts_state : AccountNonceAndBalanceState)
    (tx : Transaction) : AccountNonceAndBalanceState :=
  let st1 :=
    if accounts_state.is_monitored tx.from_ then
      match accounts_state.accounts tx.from_ with
      | some account =>
        let spent :=
          ((tx.max_fee_per_gas.getD 0 + tx.max_priority_fee_per_gas.getD 0) * tx.gas
            + tx.value) % U128_LIMIT
        accounts_state.setAccount tx.from_ ((account.sub_balance 0 spent).set_nonce tx.nonce)
      | none => accounts_state
    else accounts_state
  match tx.to_ with
  | some to_addr =>
    if st1.is_monitored to_addr then
      match st1.accounts to_addr with
      | some account => st1.setAccount to_addr (account.add_balance 0 tx.value)
      | none => st1
    else st1
  | none => st1

/-- The monitor worker's handling of one `BlockTxUpdate` whose block
history entry carries full transactions: fold the per-transaction body
over the block's transaction list. -/
def nonce_and_balance_process_block (accounts_state : AccountNonceAndBalanceState)
    (txs : List Transaction) : AccountNonceAndBalanceState :=
  txs.foldl nonce_and_balance_process_tx accounts_state

/-- Monitored sender account for the monitor witness. -/
def wAccFrom : NonceBalance := ⟨9, fun _ => 1000⟩

/-- Monitored recipient account for the monitor witness. -/
def wAccTo : NonceBalance := ⟨2, fun _ => 50⟩

/-- Monitor state tracking accounts 5 and 6. -/
def wSt : AccountNonceAndBalanceState :=
  ⟨updMap (updMap (fun _ => none) 5 (some wAccFrom)) 6 (some wAccTo), fun a => a == 5 || a == 6⟩

/-- A confirmed transaction from account 5 to account 6: fees 3 and 2,
gas 10, value 7, nonce 42. -/
def wTx : Transaction := ⟨5, some 6, some 3, some 2, 10, 7, 42⟩

/-! ### Pointwise characterisation of the `CacheDB` primitives -/

theorem updMap_same {α : Type} (f : Nat → α) (k : Nat) (v : α) : updMap f k v k = v := by
  simp [updMap]

theorem updMap_other {α : Type} (f : Nat → α) (k : Nat) (v : α) (x : Nat) (h : x ≠ k) :
    updMap f k v x = f x := by
  simp [updMap, h]

theorem updMap_updMap {α : Type} (f : Nat → α) (k : Nat) (v w : α) :
    updMap (updMap f k v) k w = updMap f k w := by
  funext x
  by_cases h : x = k <;> simp [updMap, h]

theorem updMap_eq_self {α : Type} (f : Nat → α) (k : Nat) (v : α) (h : f k = v) :
    updMap f k v = f := by
  funext x
  by_cases hx : x = k <;> simp [updMap, hx, h.symm]

theorem loadAccount_snd (db : InMemoryDB) (a : Nat) :
    (loadAccount db a).2 = (db.accounts a).getD DbAccount.newNotExisting := by
  unfold loadAccount
  cases db.accounts a <;> simp

theorem loadAccount_fst_accounts (db : InMemoryDB) (a x : Nat) :
    (loadAccount db a).1.accounts x =
      if x = a then some ((db.accounts a).getD DbAccount.newNotExisting) else db.accounts x := by
  unfold loadAccount
  cases h : db.accounts a with
  | some acc =>
    simp only [Option.getD]
    by_cases hx : x = a <;> simp [hx, h]
  | none =>
    by_cases hx : x = a <;> simp [hx, h, updMap]

theorem insertAccountInfo_accounts (db : InMemoryDB) (a : Nat) (info : AccountInfo) (x : Nat) :
    (insertAccountInfo db a info).accounts x =
      if x = a then some { (db.accounts a).getD DbAccount.defaultAccount with info := info }
      else db.accounts x := by
  unfold insertAccountInfo
  by_cases hx : x = a <;> simp [hx, updMap]

theorem insertAccountStorage_accounts (db : InMemoryDB) (a slot value : Nat) (x : Nat) :
    (insertAccountStorage db a slot value).accounts x =
      if x = a then
        some { (db.accounts a).getD DbAccount.newNotExisting with
                 storage := updMap ((db.accounts a).getD DbAccount.newNotExisting).storage slot (some value) }
      else db.accounts x := by
  unfold insertAccountStorage
  by_cases hx : x = a <;>
    simp [hx, updMap, loadAccount_fst_accounts, loadAccount_snd]

/-! ### Per-account functional view of the two apply steps -/

theorem apply_account_info_btree_accounts (s : MarketState) (a : Nat) (d : AccountState)
    (insert only_new : Bool) (x : Nat) :
    (s.apply_account_info_btree a d insert only_new).state_db.accounts x =
      if x = a then some (infoStep insert only_new d (s.state_db.accounts a))
      else s.state_db.accounts x := by
  unfold MarketState.apply_account_info_btree infoStep
  by_cases hc : infoCond insert only_new ((s.state_db.accounts a).getD DbAccount.newNotExisting).account_state
  · by_cases hx : x = a <;>
      simp [hc, hx, loadAccount_snd, loadAccount_fst_accounts, insertAccountInfo_accounts, updMap]
  · by_cases hx : x = a <;>
      simp [hc, hx, loadAccount_snd, loadAccount_fst_accounts, updMap]

theorem apply_account_info_btree_read_only (s : MarketState) (a : Nat) (d : AccountState)
    (insert only_new : Bool) :
    (s.apply_account_info_btree a d insert only_new).read_only_cells = s.read_only_cells := rfl

theorem apply_account_info_btree_force_insert (s : MarketState) (a : Nat) (d : AccountState)
    (insert only_new : Bool) :
    (s.apply_account_info_btree a d insert only_new).force_insert_accounts = s.force_insert_accounts := rfl

/-! ### Storage write lists -/

theorem writeList_nil (st : Nat → Option Nat) : writeList [] st = st := rfl

theorem writeList_cons (sv : Nat × Nat) (t : List (Nat × Nat)) (st : Nat → Option Nat) :
    writeList (sv :: t) st = writeList t (updMap st sv.1 (some sv.2)) := rfl

theorem writeList_apply (l : List (Nat × Nat)) (st : Nat → Option Nat) (x : Nat) :
    writeList l st x = match lastVal l x with | some v => some v | none => st x := by
  induction l generalizing st with
  | nil => simp [writeList, lastVal]
  | cons sv t ih =>
    rw [writeList_cons, ih]
    show (match lastVal t x with | some v => some v | none => updMap st sv.1 (some sv.2) x) = _
    rcases h : lastVal t x with _ | v
    · simp only [lastVal, h, updMap]
      by_cases hx : x = sv.1
      · simp [hx]
      · have hx' : sv.1 ≠ x := fun h' => hx h'.symm
        simp [hx, hx']
    · simp [lastVal, h]

theorem writeList_writeList (l : List (Nat × Nat)) (st : Nat → Option Nat) :
    writeList l (writeList l st) = writeList l st := by
  funext x
  rw [writeList_apply, writeList_apply]
  rcases h : lastVal l x with _ | v <;> simp [writeList_apply, h]

theorem writeList_isSome (l : List (Nat × Nat)) (st : Nat → Option Nat) (x : Nat)
    (h : (st x).isSome) : (writeList l st x).isSome := by
  rw [writeList_apply]
  rcases hl : lastVal l x with _ | v <;> simp [h]

theorem lastVal_eq_none_iff (l : List (Nat × Nat)) (x : Nat) :
    lastVal l x = none ↔ x ∉ l.map Prod.fst := by
  induction l with
  | nil => simp [lastVal]
  | cons sv t ih =>
    simp only [lastVal, List.map_cons, List.mem_cons]
    rcases h : lastVal t x with _ | v
    · have ht : x ∉ List.map Prod.fst t := ih.mp h
      constructor
      · intro hif hmem
        rcases hmem with hmem | hmem
        · rw [hmem] at hif; simp at hif
        · exact ht hmem
      · intro hmem
        have : sv.1 ≠ x := fun hh => hmem (Or.inl hh.symm)
        simp [this]
    · have ht : x ∈ List.map Prod.fst t := by
        by_contra hx
        rw [ih.mpr hx] at h
        exact Option.noConfusion h
      constructor
      · intro hh; exact Option.noConfusion hh
      · intro hmem; exact absurd (Or.inr ht) hmem

theorem lastVal_isSome_of_mem (l : List (Nat × Nat)) (x : Nat)
    (h : x ∈ l.map Prod.fst) : (lastVal l x).isSome := by
  rcases hl : lastVal l x with _ | v
  · exact absurd ((lastVal_eq_none_iff l x).mp hl) (by simp [h])
  · simp

theorem lastVal_of_nodup (l : List (Nat × Nat)) (sv : Nat × Nat)
    (hnd : (l.map Prod.fst).Nodup) (hm : sv ∈ l) : lastVal l sv.1 = some sv.2 := by
  induction l with
  | nil => simp at hm
  | cons hd t ih =>
    simp only [List.map_cons, List.nodup_cons] at hnd
    rcases List.mem_cons.mp hm with hh | hh
    · subst hh
      have : lastVal t sv.1 = none := (lastVal_eq_none_iff t sv.1).mpr hnd.1
      simp [lastVal, this]
    · have := ih hnd.2 hh
      simp [lastVal, this]

/-- Function-level form of `insertAccountStorage_accounts`. -/
theorem insertAccountStorage_accounts_fun (db : InMemoryDB) (a slot value : Nat) :
    (insertAccountStorage db a slot value).accounts =
      updMap db.accounts a
        (some { (db.accounts a).getD DbAccount.newNotExisting with
                  storage := updMap ((db.accounts a).getD DbAccount.newNotExisting).storage slot (some value) }) := by
  funext x
  rw [insertAccountStorage_accounts]
  simp [updMap]

theorem loadAccount_of_some (db : InMemoryDB) (a : Nat) (account : DbAccount)
    (h : db.accounts a = some account) : loadAccount db a = (db, account) := by
  unfold loadAccount
  rw [h]

theorem insFold_accounts (l : List (Nat × Nat)) (db : InMemoryDB) (a : Nat) (account : DbAccount)
    (h : db.accounts a = some account) :
    (l.foldl (fun db sv => insertAccountStorage db a sv.1 sv.2) db).accounts =
      updMap db.accounts a (some { account with storage := writeList l account.storage }) := by
  induction l generalizing db account with
  | nil =>
    simp only [List.foldl_nil, writeList_nil]
    exact (updMap_eq_self _ _ _ h).symm
  | cons sv t ih =>
    simp only [List.foldl_cons]
    have hdb' : (insertAccountStorage db a sv.1 sv.2).accounts =
        updMap db.accounts a (some { account with storage := updMap account.storage sv.1 (some sv.2) }) := by
      rw [insertAccountStorage_accounts_fun, h]
      rfl
    have h' : (insertAccountStorage db a sv.1 sv.2).accounts a =
        some { account with storage := updMap account.storage sv.1 (some sv.2) } := by
      rw [hdb', updMap_same]
    rw [ih _ _ h', hdb', updMap_updMap, writeList_cons]

theorem foldl_filter_cond {α β : Type} (p : α → Bool) (f : β → α → β) (l : List α) (b : β) :
    l.foldl (fun b a => if p a then f b a else b) b = (l.filter p).foldl f b := by
  induction l generalizing b with
  | nil => rfl
  | cons hd t ih =>
    by_cases hp : p hd <;> simp [List.filter_cons, hp, ih]

theorem apply_account_storage_accounts (s : MarketState) (a : Nat) (d : AccountState)
    (insert only_new : Bool) (account : DbAccount) (h : s.state_db.accounts a = some account) :
    (s.apply_account_storage a d insert only_new).state_db.accounts =
      updMap s.state_db.accounts a (some (storageStep insert only_new d account)) := by
  unfold MarketState.apply_account_storage storageStep
  cases insert with
  | true =>
    simp only [if_true]
    exact insFold_accounts d.storage s.state_db a account h
  | false =>
    simp only [Bool.false_eq_true, if_false]
    rw [loadAccount_of_some s.state_db a account h]
    have hstep :
        (fun (db : InMemoryDB) (sv : Nat × Nat) =>
          let is_slot := (account.storage sv.1).isSome
          if is_slot && !only_new then insertAccountStorage db a sv.1 sv.2
          else if !is_slot && only_new then insertAccountStorage db a sv.1 sv.2
          else db) =
        (fun (db : InMemoryDB) (sv : Nat × Nat) =>
          if slotCond only_new account sv.1 then insertAccountStorage db a sv.1 sv.2 else db) := by
      funext db sv
      cases hs : (account.storage sv.1).isSome <;> cases only_new <;>
        simp [slotCond, hs]
    simp only [hstep]
    rw [foldl_filter_cond]
    exact insFold_accounts _ s.state_db a account h

theorem apply_account_storage_read_only (s : MarketState) (a : Nat) (d : AccountState)
    (insert only_new : Bool) :
    (s.apply_account_storage a d insert only_new).read_only_cells = s.read_only_cells := by
  unfold MarketState.apply_account_storage
  cases insert <;> simp

theorem apply_account_storage_force_insert (s : MarketState) (a : Nat) (d : AccountState)
    (insert only_new : Bool) :
    (s.apply_account_storage a d insert only_new).force_insert_accounts = s.force_insert_accounts := by
  unfold MarketState.apply_account_storage
  cases insert <;> simp

theorem apply_one_accounts (s : MarketState) (a : Nat) (d : AccountState) (insert only_new : Bool) :
    ((s.apply_account_info_btree a d insert only_new).apply_account_storage a d insert only_new).state_db.accounts =
      updMap s.state_db.accounts a (some (applyFull insert only_new d (s.state_db.accounts a))) := by
  have h1 : (s.apply_account_info_btree a d insert only_new).state_db.accounts a =
      some (infoStep insert only_new d (s.state_db.accounts a)) := by
    rw [apply_account_info_btree_accounts]; simp
  rw [apply_account_storage_accounts _ _ _ _ _ _ h1]
  funext x
  by_cases hx : x = a
  · simp [updMap, hx, applyFull]
  · simp [updMap, hx, apply_account_info_btree_accounts]

/-! ### Pointwise view of `apply_state_update` on a single record -/

theorem lookup_cons_self {β : Type} (hd : Nat × β) (t : List (Nat × β)) (x : Nat)
    (hx : x = hd.1) : (hd :: t).lookup x = some hd.2 := by
  rw [List.lookup, beq_iff_eq.mpr hx]

theorem lookup_cons_ne {β : Type} (hd : Nat × β) (t : List (Nat × β)) (x : Nat)
    (hx : x ≠ hd.1) : (hd :: t).lookup x = t.lookup x := by
  rw [List.lookup, beq_eq_false_iff_ne.mpr hx]

theorem lookup_some_mem {β : Type} (u : List (Nat × β)) (x : Nat) (d : β)
    (h : u.lookup x = some d) : (x, d) ∈ u := by
  induction u with
  | nil => simp [List.lookup] at h
  | cons hd t ih =>
    by_cases hx : x = hd.1
    · rw [lookup_cons_self hd t x hx] at h
      cases h
      subst hx
      exact List.mem_cons_self _ _
    · rw [lookup_cons_ne hd t x hx] at h
      exact List.mem_cons_of_mem _ (ih h)

theorem lookup_none_of_not_mem {β : Type} (u : List (Nat × β)) (x : Nat)
    (h : x ∉ u.map Prod.fst) : u.lookup x = none := by
  induction u with
  | nil => rfl
  | cons hd t ih =>
    simp only [List.map_cons, List.mem_cons] at h
    push_neg at h
    rw [lookup_cons_ne hd t x h.1, ih h.2]

theorem apply_state_update_single (s : MarketState) (u : List (Nat × AccountState))
    (insert only_new : Bool) :
    s.apply_state_update [u] insert only_new =
      u.foldl (fun s ad =>
        (s.apply_account_info_btree ad.1 ad.2 insert only_new).apply_account_storage
          ad.1 ad.2 insert only_new) s := by
  unfold MarketState.apply_state_update
  simp

theorem apply_state_update_read_only (s : MarketState)
    (update_vec : List (List (Nat × AccountState))) (insert only_new : Bool) :
    (s.apply_state_update update_vec insert only_new).read_only_cells = s.read_only_cells := by
  unfold MarketState.apply_state_update
  induction update_vec generalizing s with
  | nil => rfl
  | cons r t ih =>
    rw [List.foldl_cons, ih]
    induction r generalizing s with
    | nil => rfl
    | cons ad tr ihr =>
      rw [List.foldl_cons, ihr, apply_account_storage_read_only,
        apply_account_info_btree_read_only]

theorem apply_state_update_force_insert (s : MarketState)
    (update_vec : List (List (Nat × AccountState))) (insert only_new : Bool) :
    (s.apply_state_update update_vec insert only_new).force_insert_accounts = s.force_insert_accounts := by
  unfold MarketState.apply_state_update
  induction update_vec generalizing s with
  | nil => rfl
  | cons r t ih =>
    rw [List.foldl_cons, ih]
    induction r generalizing s with
    | nil => rfl
    | cons ad tr ihr =>
      rw [List.foldl_cons, ihr, apply_account_storage_force_insert,
        apply_account_info_btree_force_insert]

/-- Pointwise effect of applying one record with distinct addresses: each
account of the record is transformed by `applyFull` on its own diff, every
other account is untouched. -/
theorem apply_state_update_single_accounts (s : MarketState) (u : List (Nat × AccountState))
    (insert only_new : Bool) (hu : (u.map Prod.fst).Nodup) (x : Nat) :
    (s.apply_state_update [u] insert only_new).state_db.accounts x =
      match u.lookup x with
      | some d => some (applyFull insert only_new d (s.state_db.accounts x))
      | none => s.state_db.accounts x := by
  rw [apply_state_update_single]
  induction u generalizing s with
  | nil => rfl
  | cons ad t ih =>
    simp only [List.map_cons, List.nodup_cons] at hu
    rw [List.foldl_cons, ih _ hu.2]
    by_cases hx : x = ad.1
    · have hnone : t.lookup x = none := by
        apply lookup_none_of_not_mem
        rw [hx]
        exact hu.1
      rw [lookup_cons_self ad t x hx, hnone, apply_one_accounts]
      subst hx
      simp [updMap]
    · have hframe :
          ((s.apply_account_info_btree ad.1 ad.2 insert only_new).apply_account_storage
            ad.1 ad.2 insert only_new).state_db.accounts x = s.state_db.accounts x := by
        rw [apply_one_accounts, updMap_other _ _ _ _ hx]
      rw [lookup_cons_ne ad t x hx, hframe]

/-! ### Idempotence of the per-account transform -/

theorem infoStep_account_state (i n : Bool) (d : AccountState) (acc0 : Option DbAccount) :
    (infoStep i n d acc0).account_state = .Touched := by
  unfold infoStep
  by_cases hc : infoCond i n ((acc0.getD DbAccount.newNotExisting).account_state) <;> simp [hc]

theorem infoStep_storage (i n : Bool) (d : AccountState) (acc0 : Option DbAccount) :
    (infoStep i n d acc0).storage = (acc0.getD DbAccount.newNotExisting).storage := by
  unfold infoStep
  by_cases hc : infoCond i n ((acc0.getD DbAccount.newNotExisting).account_state) <;> simp [hc]

theorem infoStep_info_of_cond (i n : Bool) (d : AccountState) (acc0 : Option DbAccount)
    (hc : infoCond i n ((acc0.getD DbAccount.newNotExisting).account_state) = true) :
    (infoStep i n d acc0).info =
      { balance := d.balance.getD 0
        nonce := d.nonce.getD 0
        code := mergeCode d.code (acc0.getD DbAccount.newNotExisting).info.code } := by
  unfold infoStep
  simp [hc]

theorem storageStep_info (i n : Bool) (d : AccountState) (acc : DbAccount) :
    (storageStep i n d acc).info = acc.info := by
  unfold storageStep
  cases i <;> rfl

theorem storageStep_account_state (i n : Bool) (d : AccountState) (acc : DbAccount) :
    (storageStep i n d acc).account_state = acc.account_state := by
  unfold storageStep
  cases i <;> rfl

theorem storageStep_storage_true (n : Bool) (d : AccountState) (acc : DbAccount) :
    (storageStep true n d acc).storage = writeList d.storage acc.storage := rfl

theorem storageStep_storage_false (n : Bool) (d : AccountState) (acc : DbAccount) :
    (storageStep false n d acc).storage =
      writeList (d.storage.filter (fun sv => slotCond n acc sv.1)) acc.storage := rfl

theorem infoCond_touched (i n : Bool) : infoCond i n .Touched = (i || !n) := by
  cases i <;> cases n <;> rfl

theorem mergeCode_idem (dc oc : Option (List Nat)) :
    mergeCode dc (mergeCode dc oc) = mergeCode dc oc := by
  unfold mergeCode
  cases dc with
  | none => rfl
  | some c => by_cases h : c.length < 2 <;> simp [h]

theorem key_not_mem_filter (p : Nat → Bool) (l : List (Nat × Nat)) (k : Nat)
    (hp : p k = false) : k ∉ (l.filter (fun sv => p sv.1)).map Prod.fst := by
  intro hmem
  obtain ⟨sv, hsv, hk⟩ := List.mem_map.mp hmem
  have := (List.mem_filter.mp hsv).2
  rw [hk] at this
  rw [hp] at this
  exact Bool.noConfusion this

theorem applyFull_account_state (i n : Bool) (d : AccountState) (acc0 : Option DbAccount) :
    (applyFull i n d acc0).account_state = .Touched := by
  unfold applyFull
  rw [storageStep_account_state, infoStep_account_state]

theorem applyFull_info (i n : Bool) (d : AccountState) (acc0 : Option DbAccount) :
    (applyFull i n d acc0).info = (infoStep i n d acc0).info := by
  unfold applyFull
  rw [storageStep_info]

theorem infoStep_eq (i n : Bool) (d : AccountState) (acc0 : Option DbAccount) :
    infoStep i n d acc0 =
      if infoCond i n ((acc0.getD DbAccount.newNotExisting).account_state) then
        { acc0.getD DbAccount.newNotExisting with
            info :=
              { balance := d.balance.getD 0
                nonce := d.nonce.getD 0
                code := mergeCode d.code ((acc0.getD DbAccount.newNotExisting)).info.code }
            account_state := .Touched }
      else { acc0.getD DbAccount.newNotExisting with account_state := .Touched } := by
  unfold infoStep
  by_cases hc : infoCond i n ((acc0.getD DbAccount.newNotExisting).account_state) <;> simp [hc]

theorem infoCond_insert (n : Bool) (st : DbAccountState) : infoCond true n st = true := by
  simp [infoCond]

theorem infoCond_neither (st : DbAccountState)
    (h : st = .Touched ∨ st = .StorageCleared) : infoCond false false st = true := by
  rcases h with h | h <;> rw [h] <;> rfl

theorem slotCond_true_eq (acc : DbAccount) (k : Nat) :
    slotCond true acc k = !(acc.storage k).isSome := by
  cases h : (acc.storage k).isSome <;> simp [slotCond, h]

theorem slotCond_false_eq (acc : DbAccount) (k : Nat) :
    slotCond false acc k = (acc.storage k).isSome := by
  cases h : (acc.storage k).isSome <;> simp [slotCond, h]

theorem writeList_isSome_of_key_mem (l : List (Nat × Nat)) (st : Nat → Option Nat) (x : Nat)
    (h : x ∈ l.map Prod.fst) : (writeList l st x).isSome := by
  rw [writeList_apply]
  have hs := lastVal_isSome_of_mem l x h
  rcases hl : lastVal l x with _ | v
  · rw [hl] at hs; exact absurd hs (by simp)
  · simp

theorem infoStep_stable (i n : Bool) (d : AccountState) (acc0 : Option DbAccount)
    (h : i = true ∨ n = true ∨ accStateOk acc0) :
    infoStep i n d (some (applyFull i n d acc0)) = applyFull i n d acc0 := by
  rw [infoStep_eq]
  simp only [Option.getD_some]
  rw [applyFull_account_state, infoCond_touched]
  by_cases hin : (i || !n) = true
  · rw [if_pos hin]
    have hcond1 : infoCond i n ((acc0.getD DbAccount.newNotExisting).account_state) = true := by
      cases i with
      | true => exact infoCond_insert n _
      | false =>
        have hn : n = false := by
          cases n with
          | true => simp at hin
          | false => rfl
        subst hn
        rcases h with h | h | h
        · exact Bool.noConfusion h
        · exact Bool.noConfusion h
        · unfold accStateOk at h
          rcases hacc : acc0 with _ | acc
          · rw [hacc] at h; exact absurd h (by simp)
          · rw [hacc] at h
            exact infoCond_neither _ h
    have hBinfo : (applyFull i n d acc0).info =
        { balance := d.balance.getD 0
          nonce := d.nonce.getD 0
          code := mergeCode d.code ((acc0.getD DbAccount.newNotExisting)).info.code } := by
      rw [applyFull_info, infoStep_info_of_cond _ _ _ _ hcond1]
    calc ({ applyFull i n d acc0 with
              info :=
                { balance := d.balance.getD 0
                  nonce := d.nonce.getD 0
                  code := mergeCode d.code (applyFull i n d acc0).info.code }
              account_state := .Touched } : DbAccount)
        = { applyFull i n d acc0 with
              info := (applyFull i n d acc0).info
              account_state := (applyFull i n d acc0).account_state } := by
          rw [applyFull_account_state, hBinfo, mergeCode_idem]
      _ = applyFull i n d acc0 := rfl
  · rw [if_neg hin]
    calc ({ applyFull i n d acc0 with account_state := .Touched } : DbAccount)
        = { applyFull i n d acc0 with account_state := (applyFull i n d acc0).account_state } := by
          rw [applyFull_account_state]
      _ = applyFull i n d acc0 := rfl

theorem applyFull_storage_true (n : Bool) (d : AccountState) (acc0 : Option DbAccount) :
    (applyFull true n d acc0).storage = writeList d.storage (infoStep true n d acc0).storage := by
  unfold applyFull
  rw [storageStep_storage_true]

theorem applyFull_storage_false (n : Bool) (d : AccountState) (acc0 : Option DbAccount) :
    (applyFull false n d acc0).storage =
      writeList (d.storage.filter (fun sv => slotCond n (infoStep false n d acc0) sv.1))
        (infoStep false n d acc0).storage := by
  unfold applyFull
  rw [storageStep_storage_false]

theorem storageStep_stable (i n : Bool) (d : AccountState) (acc0 : Option DbAccount)
    (h : i = true ∨ n = true ∨ accStateOk acc0) :
    storageStep i n d (applyFull i n d acc0) = applyFull i n d acc0 := by
  cases i with
  | true =>
    have hst : (storageStep true n d (applyFull true n d acc0)).storage =
        (applyFull true n d acc0).storage := by
      rw [storageStep_storage_true, applyFull_storage_true, writeList_writeList]
    calc storageStep true n d (applyFull true n d acc0)
        = { info := (storageStep true n d (applyFull true n d acc0)).info
            account_state := (storageStep true n d (applyFull true n d acc0)).account_state
            storage := (storageStep true n d (applyFull true n d acc0)).storage } := rfl
      _ = { info := (applyFull true n d acc0).info
            account_state := (applyFull true n d acc0).account_state
            storage := (applyFull true n d acc0).storage } := by
          rw [storageStep_info, storageStep_account_state, hst]
      _ = applyFull true n d acc0 := rfl
  | false =>
    have hst : (storageStep false n d (applyFull false n d acc0)).storage =
        (applyFull false n d acc0).storage := by
      rw [storageStep_storage_false]
      cases n with
      | true =>
        have hkeys : ∀ sv ∈ d.storage, ((applyFull false true d acc0).storage sv.1).isSome = true := by
          intro sv hm
          rw [applyFull_storage_false]
          cases hA : ((infoStep false true d acc0).storage sv.1).isSome with
          | true => exact writeList_isSome _ _ _ hA
          | false =>
            apply writeList_isSome_of_key_mem
            apply List.mem_map.mpr
            refine ⟨sv, List.mem_filter.mpr ⟨hm, ?_⟩, rfl⟩
            rw [slotCond_true_eq, hA]
            rfl
        have hfilter :
            d.storage.filter (fun sv => slotCond true (applyFull false true d acc0) sv.1) = [] := by
          apply List.filter_eq_nil_iff.mpr
          intro sv hm
          rw [slotCond_true_eq, hkeys sv hm]
          simp
        rw [hfilter, writeList_nil]
      | false =>
        have hp : ∀ sv ∈ d.storage,
            slotCond false (applyFull false false d acc0) sv.1 =
              slotCond false (infoStep false false d acc0) sv.1 := by
          intro sv hm
          rw [slotCond_false_eq, slotCond_false_eq]
          cases hA : ((infoStep false false d acc0).storage sv.1).isSome with
          | true =>
            have hB : ((applyFull false false d acc0).storage sv.1).isSome = true := by
              rw [applyFull_storage_false]
              exact writeList_isSome _ _ _ hA
            exact hB
          | false =>
            have hnotmem : sv.1 ∉
                (d.storage.filter (fun sv => slotCond false (infoStep false false d acc0) sv.1)).map
                  Prod.fst := by
              apply key_not_mem_filter (slotCond false (infoStep false false d acc0))
              rw [slotCond_false_eq, hA]
            have hB : (applyFull false false d acc0).storage sv.1 =
                (infoStep false false d acc0).storage sv.1 := by
              rw [applyFull_storage_false, writeList_apply,
                (lastVal_eq_none_iff _ _).mpr hnotmem]
            rw [hB]
            exact hA
        rw [List.filter_congr hp, applyFull_storage_false, writeList_writeList,
          ← applyFull_storage_false]
    calc storageStep false n d (applyFull false n d acc0)
        = { info := (storageStep false n d (applyFull false n d acc0)).info
            account_state := (storageStep false n d (applyFull false n d acc0)).account_state
            storage := (storageStep false n d (applyFull false n d acc0)).storage } := rfl
      _ = { info := (applyFull false n d acc0).info
            account_state := (applyFull false n d acc0).account_state
            storage := (applyFull false n d acc0).storage } := by
          rw [storageStep_info, storageStep_account_state, hst]
      _ = applyFull false n d acc0 := rfl

/-- Applying the same per-account diff a second time is a no-op when the
flags are `insert` or `only_new`, or the account started in the
`Touched`/`StorageCleared` marker states. -/
theorem applyFull_idem (i n : Bool) (d : AccountState) (acc0 : Option DbAccount)
    (h : i = true ∨ n = true ∨ accStateOk acc0) :
    applyFull i n d (some (applyFull i n d acc0)) = applyFull i n d acc0 := by
  show storageStep i n d (infoStep i n d (some (applyFull i n d acc0))) = _
  rw [infoStep_stable i n d acc0 h]
  exact storageStep_stable i n d acc0 h

/-! ### Claim theorems: idempotence and commutativity of the mirror -/

/-- C2 (counterexample): applying the diff `{0: {balance: 5}}` twice with
`insert = false, only_new = false` from the empty state is not the same as
applying it once.  The first pass skips the info write (the freshly loaded
account is `NotExisting`) but still promotes the marker to `Touched`, so
the second pass does write `balance = 5`. -/
theorem apply_state_update_not_idempotent :
    ((emptyMarketState.apply_state_update [[(0, c2Diff)]] false false).apply_state_update
        [[(0, c2Diff)]] false false) ≠
      emptyMarketState.apply_state_update [[(0, c2Diff)]] false false := by
  intro h
  have hb := congrArg (fun s => balanceAt s 0) h
  revert hb
  decide

/-- C2 (amended): for every `GethStateUpdate` `u` (a `BTreeMap`, so its
addresses are distinct) and flags, applying `u` twice with
`apply_state_update` equals applying it once, provided `insert = true` or
`only_new = true`, or every account addressed by `u` starts in the
`Touched`/`StorageCleared` marker state — the one mode the counterexample
excludes is `insert = false, only_new = false` on an account whose loaded
marker is `NotExisting`/`None`, where the first pass only promotes the
marker and the second pass then applies the info. -/
theorem apply_state_update_idem_amended (s : MarketState) (u : List (Nat × AccountState))
    (insert only_new : Bool) (hu : (u.map Prod.fst).Nodup)
    (h : insert = true ∨ only_new = true ∨ ∀ ad ∈ u, accStateOk (s.state_db.accounts ad.1)) :
    (s.apply_state_update [u] insert only_new).apply_state_update [u] insert only_new =
      s.apply_state_update [u] insert only_new := by
  have haccounts : ∀ x,
      ((s.apply_state_update [u] insert only_new).apply_state_update
          [u] insert only_new).state_db.accounts x =
        (s.apply_state_update [u] insert only_new).state_db.accounts x := by
    intro x
    have hF := apply_state_update_single_accounts s u insert only_new hu x
    have hFF := apply_state_update_single_accounts (s.apply_state_update [u] insert only_new)
      u insert only_new hu x
    rcases hl : u.lookup x with _ | d
    · rw [hl] at hF hFF
      have hF2 : (s.apply_state_update [u] insert only_new).state_db.accounts x =
          s.state_db.accounts x := hF
      have hFF2 : ((s.apply_state_update [u] insert only_new).apply_state_update
          [u] insert only_new).state_db.accounts x =
          (s.apply_state_update [u] insert only_new).state_db.accounts x := hFF
      exact hFF2
    · rw [hl] at hF hFF
      have hF' : (s.apply_state_update [u] insert only_new).state_db.accounts x =
          some (applyFull insert only_new d (s.state_db.accounts x)) := hF
      have hFF' : ((s.apply_state_update [u] insert only_new).apply_state_update
          [u] insert only_new).state_db.accounts x =
          some (applyFull insert only_new d
            ((s.apply_state_update [u] insert only_new).state_db.accounts x)) := hFF
      rw [hFF', hF', applyFull_idem]
      rcases h with h | h | h
      · exact Or.inl h
      · exact Or.inr (Or.inl h)
      · exact Or.inr (Or.inr (h (x, d) (lookup_some_mem u x d hl)))
  have hdb : ((s.apply_state_update [u] insert only_new).apply_state_update
      [u] insert only_new).state_db = (s.apply_state_update [u] insert only_new).state_db := by
    have hfn := funext haccounts
    calc ((s.apply_state_update [u] insert only_new).apply_state_update
        [u] insert only_new).state_db
        = ⟨((s.apply_state_update [u] insert only_new).apply_state_update
            [u] insert only_new).state_db.accounts⟩ := rfl
      _ = ⟨(s.apply_state_update [u] insert only_new).state_db.accounts⟩ := by rw [hfn]
      _ = (s.apply_state_update [u] insert only_new).state_db := rfl
  have hro : ((s.apply_state_update [u] insert only_new).apply_state_update
      [u] insert only_new).read_only_cells =
      (s.apply_state_update [u] insert only_new).read_only_cells := by
    rw [apply_state_update_read_only]
  have hfi : ((s.apply_state_update [u] insert only_new).apply_state_update
      [u] insert only_new).force_insert_accounts =
      (s.apply_state_update [u] insert only_new).force_insert_accounts := by
    rw [apply_state_update_force_insert]
  calc ((s.apply_state_update [u] insert only_new).apply_state_update [u] insert only_new)
      = { state_db := ((s.apply_state_update [u] insert only_new).apply_state_update
            [u] insert only_new).state_db
          force_insert_accounts := ((s.apply_state_update [u] insert only_new).apply_state_update
            [u] insert only_new).force_insert_accounts
          read_only_cells := ((s.apply_state_update [u] insert only_new).apply_state_update
            [u] insert only_new).read_only_cells } := rfl
    _ = { state_db := (s.apply_state_update [u] insert only_new).state_db
          force_insert_accounts := (s.apply_state_update [u] insert only_new).force_insert_accounts
          read_only_cells := (s.apply_state_update [u] insert only_new).read_only_cells } := by
        rw [hdb, hro, hfi]
    _ = s.apply_state_update [u] insert only_new := rfl

/-- C2 (witness): the amended idempotence at a concrete input — the same
diff as the counterexample but applied with `insert = true`. -/
theorem apply_state_update_idem_amended_witness :
    (emptyMarketState.apply_state_update [[(0, c2Diff)]] true false).apply_state_update
        [[(0, c2Diff)]] true false =
      emptyMarketState.apply_state_update [[(0, c2Diff)]] true false :=
  apply_state_update_idem_amended emptyMarketState [(0, c2Diff)] true false
    (by decide) (Or.inl rfl)

/-- C9: two `GethStateUpdate`s whose touched address sets are disjoint
commute through `apply_state_update`, from every starting state and for
every flag pair (the per-address transforms read and write only their own
account entry). -/
theorem apply_state_update_comm_disjoint (s : MarketState)
    (u1 u2 : List (Nat × AccountState)) (insert only_new : Bool)
    (h1 : (u1.map Prod.fst).Nodup) (h2 : (u2.map Prod.fst).Nodup)
    (hd : ∀ a, a ∈ u1.map Prod.fst → a ∉ u2.map Prod.fst) :
    (s.apply_state_update [u1] insert only_new).apply_state_update [u2] insert only_new =
      (s.apply_state_update [u2] insert only_new).apply_state_update [u1] insert only_new := by
  have haccounts : ∀ x,
      ((s.apply_state_update [u1] insert only_new).apply_state_update
          [u2] insert only_new).state_db.accounts x =
        ((s.apply_state_update [u2] insert only_new).apply_state_update
          [u1] insert only_new).state_db.accounts x := by
    intro x
    have hA1 := apply_state_update_single_accounts s u1 insert only_new h1 x
    have hA2 := apply_state_update_single_accounts s u2 insert only_new h2 x
    have hB1 := apply_state_update_single_accounts (s.apply_state_update [u2] insert only_new)
      u1 insert only_new h1 x
    have hB2 := apply_state_update_single_accounts (s.apply_state_update [u1] insert only_new)
      u2 insert only_new h2 x
    rcases hl1 : u1.lookup x with _ | d1 <;> rcases hl2 : u2.lookup x with _ | d2
    · rw [hl1] at hA1 hB1
      rw [hl2] at hA2 hB2
      have e1 : ((s.apply_state_update [u1] insert only_new).apply_state_update
          [u2] insert only_new).state_db.accounts x =
          (s.apply_state_update [u1] insert only_new).state_db.accounts x := hB2
      have e2 : (s.apply_state_update [u1] insert only_new).state_db.accounts x =
          s.state_db.accounts x := hA1
      have e3 : ((s.apply_state_update [u2] insert only_new).apply_state_update
          [u1] insert only_new).state_db.accounts x =
          (s.apply_state_update [u2] insert only_new).state_db.accounts x := hB1
      have e4 : (s.apply_state_update [u2] insert only_new).state_db.accounts x =
          s.state_db.accounts x := hA2
      rw [e1, e2, e3, e4]
    · rw [hl1] at hA1 hB1
      rw [hl2] at hA2 hB2
      have e1 : ((s.apply_state_update [u1] insert only_new).apply_state_update
          [u2] insert only_new).state_db.accounts x =
          some (applyFull insert only_new d2
            ((s.apply_state_update [u1] insert only_new).state_db.accounts x)) := hB2
      have e2 : (s.apply_state_update [u1] insert only_new).state_db.accounts x =
          s.state_db.accounts x := hA1
      have e3 : ((s.apply_state_update [u2] insert only_new).apply_state_update
          [u1] insert only_new).state_db.accounts x =
          (s.apply_state_update [u2] insert only_new).state_db.accounts x := hB1
      have e4 : (s.apply_state_update [u2] insert only_new).state_db.accounts x =
          some (applyFull insert only_new d2 (s.state_db.accounts x)) := hA2
      rw [e1, e2, e3, e4]
    · rw [hl1] at hA1 hB1
      rw [hl2] at hA2 hB2
      have e1 : ((s.apply_state_update [u1] insert only_new).apply_state_update
          [u2] insert only_new).state_db.accounts x =
          (s.apply_state_update [u1] insert only_new).state_db.accounts x := hB2
      have e2 : (s.apply_state_update [u1] insert only_new).state_db.accounts x =
          some (applyFull insert only_new d1 (s.state_db.accounts x)) := hA1
      have e3 : ((s.apply_state_update [u2] insert only_new).apply_state_update
          [u1] insert only_new).state_db.accounts x =
          some (applyFull insert only_new d1
            ((s.apply_state_update [u2] insert only_new).state_db.accounts x)) := hB1
      have e4 : (s.apply_state_update [u2] insert only_new).state_db.accounts x =
          s.state_db.accounts x := hA2
      rw [e1, e2, e3, e4]
    · exfalso
      have hm1 : x ∈ u1.map Prod.fst :=
        List.mem_map.mpr ⟨(x, d1), lookup_some_mem u1 x d1 hl1, rfl⟩
      have hm2 : x ∈ u2.map Prod.fst :=
        List.mem_map.mpr ⟨(x, d2), lookup_some_mem u2 x d2 hl2, rfl⟩
      exact hd x hm1 hm2
  have hdb : ((s.apply_state_update [u1] insert only_new).apply_state_update
      [u2] insert only_new).state_db =
      ((s.apply_state_update [u2] insert only_new).apply_state_update
        [u1] insert only_new).state_db := by
    have hfn := funext haccounts
    calc ((s.apply_state_update [u1] insert only_new).apply_state_update
        [u2] insert only_new).state_db
        = ⟨((s.apply_state_update [u1] insert only_new).apply_state_update
            [u2] insert only_new).state_db.accounts⟩ := rfl
      _ = ⟨((s.apply_state_update [u2] insert only_new).apply_state_update
            [u1] insert only_new).state_db.accounts⟩ := by rw [hfn]
      _ = ((s.apply_state_update [u2] insert only_new).apply_state_update
            [u1] insert only_new).state_db := rfl
  have hro : ((s.apply_state_update [u1] insert only_new).apply_state_update
      [u2] insert only_new).read_only_cells =
      ((s.apply_state_update [u2] insert only_new).apply_state_update
        [u1] insert only_new).read_only_cells := by
    rw [apply_state_update_read_only, apply_state_update_read_only,
      apply_state_update_read_only, apply_state_update_read_only]
  have hfi : ((s.apply_state_update [u1] insert only_new).apply_state_update
      [u2] insert only_new).force_insert_accounts =
      ((s.apply_state_update [u2] insert only_new).apply_state_update
        [u1] insert only_new).force_insert_accounts := by
    rw [apply_state_update_force_insert, apply_state_update_force_insert,
      apply_state_update_force_insert, apply_state_update_force_insert]
  calc ((s.apply_state_update [u1] insert only_new).apply_state_update [u2] insert only_new)
      = { state_db := ((s.apply_state_update [u1] insert only_new).apply_state_update
            [u2] insert only_new).state_db
          force_insert_accounts := ((s.apply_state_update [u1] insert only_new).apply_state_update
            [u2] insert only_new).force_insert_accounts
          read_only_cells := ((s.apply_state_update [u1] insert only_new).apply_state_update
            [u2] insert only_new).read_only_cells } := rfl
    _ = { state_db := ((s.apply_state_update [u2] insert only_new).apply_state_update
            [u1] insert only_new).state_db
          force_insert_accounts := ((s.apply_state_update [u2] insert only_new).apply_state_update
            [u1] insert only_new).force_insert_accounts
          read_only_cells := ((s.apply_state_update [u2] insert only_new).apply_state_update
            [u1] insert only_new).read_only_cells } := by rw [hdb, hro, hfi]
    _ = (s.apply_state_update [u2] insert only_new).apply_state_update [u1] insert only_new := rfl

/-- C9 (witness): commutativity at concrete disjoint updates — account 0
(balance 5) and account 1 (slot 4 = 9). -/
theorem apply_state_update_comm_disjoint_witness :
    (emptyMarketState.apply_state_update [[(0, c2Diff)]] true false).apply_state_update
        [[(1, roDiff)]] true false =
      (emptyMarketState.apply_state_update [[(1, roDiff)]] true false).apply_state_update
        [[(0, c2Diff)]] true false :=
  apply_state_update_comm_disjoint emptyMarketState [(0, c2Diff)] [(1, roDiff)] true false
    (by decide) (by decide) (by decide)

/-! ### Claim theorems: the S1 scenario and read-only cells -/

/-- C1 (counterexample): in the S1 scenario the first apply
(`insert=false, only_new=false`) does not produce `storage{1:20, 2:30}` —
slot 2 was not previously present, so it is skipped — and the second apply
(`only_new=true`) does change the state (it adds slot 2). -/
theorem s1_scenario_counterexample :
    storageAt (s1Start.apply_state_update [[(10, s1Diff)]] false false) 10 2 = none ∧
    ((s1Start.apply_state_update [[(10, s1Diff)]] false false).apply_state_update
        [[(10, s1Diff)]] false true) ≠
      s1Start.apply_state_update [[(10, s1Diff)]] false false := by
  constructor
  · decide
  · intro h
    have hs := congrArg (fun s => storageAt s 10 2) h
    revert hs
    decide

/-- C1 (amended): in the S1 scenario the first apply with `insert=false,
only_new=false` leaves `0xA` with `balance=200, storage{1:20}` (slot 2 is
absent, so it is not written), and the second apply of the same diff with
`only_new=true` then adds slot 2, leaving `balance=200,
storage{1:20, 2:30}`. -/
theorem s1_scenario_amended :
    (balanceAt (s1Start.apply_state_update [[(10, s1Diff)]] false false) 10 = 200 ∧
     storageAt (s1Start.apply_state_update [[(10, s1Diff)]] false false) 10 1 = some 20 ∧
     storageAt (s1Start.apply_state_update [[(10, s1Diff)]] false false) 10 2 = none) ∧
    (balanceAt ((s1Start.apply_state_update [[(10, s1Diff)]] false false).apply_state_update
        [[(10, s1Diff)]] false true) 10 = 200 ∧
     storageAt ((s1Start.apply_state_update [[(10, s1Diff)]] false false).apply_state_update
        [[(10, s1Diff)]] false true) 10 1 = some 20 ∧
     storageAt ((s1Start.apply_state_update [[(10, s1Diff)]] false false).apply_state_update
        [[(10, s1Diff)]] false true) 10 2 = some 30) := by
  decide

/-- C3 (counterexample): after `disable_cell(7, 1)` the cell is registered
and holds 10, yet one `apply_state_update` with `insert=true` overwrites
it to 99 — `apply_account_storage` never consults `read_only_cells`. -/
theorem read_only_cell_overwritten :
    (roStart.disable_cell 7 1).is_read_only_cell 7 1 = true ∧
    storageAt (roStart.disable_cell 7 1) 7 1 = some 10 ∧
    storageAt ((roStart.disable_cell 7 1).apply_state_update [[(7, roDiff)]] true false) 7 1
      = some 99 := by
  decide

/-- C3 (amended): `apply_state_update` never modifies the `read_only_cells`
registry itself, so a cell registered through `disable_cell` stays
registered (and `is_read_only_cell` keeps answering `true`) across any
sequence of `apply_state_update` calls; the stored value at the cell is
not protected (the counterexample overwrites it). -/
theorem read_only_cells_preserved_amended (s : MarketState) (address cell : Nat)
    (calls : List (List (List (Nat × AccountState)) × Bool × Bool)) :
    (applySeq (s.disable_cell address cell) calls).read_only_cells =
      (s.disable_cell address cell).read_only_cells ∧
    (applySeq (s.disable_cell address cell) calls).is_read_only_cell address cell = true := by
  have hseq : ∀ (s' : MarketState), (applySeq s' calls).read_only_cells = s'.read_only_cells := by
    induction calls with
    | nil => intro s'; rfl
    | cons c t ih =>
      intro s'
      show (applySeq (s'.apply_state_update c.1 c.2.1 c.2.2) t).read_only_cells = _
      rw [ih, apply_state_update_read_only]
  refine ⟨hseq _, ?_⟩
  show (applySeq (s.disable_cell address cell) calls).read_only_cells address cell = true
  rw [hseq]
  show (if address = address then
          (fun c => if c = cell then true else s.read_only_cells address c)
        else s.read_only_cells address) cell = true
  simp

/-! ### Claim theorem: the per-slot insert/only_new matrix -/

theorem insertAccountStorage_dbSlot (db : InMemoryDB) (a slot value x : Nat) :
    dbSlot (insertAccountStorage db a slot value) a x =
      if x = slot then some value else dbSlot db a x := by
  unfold dbSlot
  rw [insertAccountStorage_accounts]
  simp only [if_pos rfl]
  cases h : db.accounts a with
  | some acc => simp [h, updMap]
  | none =>
    simp only [h, Option.getD_none]
    show updMap DbAccount.newNotExisting.storage slot (some value) x = _
    by_cases hx : x = slot <;> simp [updMap, hx, DbAccount.newNotExisting]

theorem insFold_dbSlot (l : List (Nat × Nat)) (db : InMemoryDB) (a x : Nat) :
    dbSlot (l.foldl (fun db sv => insertAccountStorage db a sv.1 sv.2) db) a x =
      match lastVal l x with | some v => some v | none => dbSlot db a x := by
  induction l generalizing db with
  | nil => rfl
  | cons sv t ih =>
    rw [List.foldl_cons, ih]
    show (match lastVal t x with
          | some v => some v
          | none => dbSlot (insertAccountStorage db a sv.1 sv.2) a x) = _
    rcases h : lastVal t x with _ | v
    · rw [insertAccountStorage_dbSlot]
      simp only [lastVal, h]
      by_cases hx : x = sv.1
      · simp [hx]
      · have hx' : sv.1 ≠ x := fun h' => hx h'.symm
        simp [hx, hx']
    · simp [lastVal, h]

theorem loadAccount_dbSlot (db : InMemoryDB) (a b x : Nat) :
    dbSlot (loadAccount db a).1 b x = dbSlot db b x := by
  unfold dbSlot
  rw [loadAccount_fst_accounts]
  by_cases hb : b = a
  · subst hb
    simp only [if_pos rfl]
    cases h : db.accounts b with
    | some acc => simp [h]
    | none => simp [h, DbAccount.newNotExisting]
  · simp [hb]

theorem is_slot_eq_snap (s : MarketState) (a k : Nat) :
    s.is_slot a k =
      (((s.state_db.accounts a).getD DbAccount.newNotExisting).storage k).isSome := by
  unfold MarketState.is_slot
  cases h : s.state_db.accounts a with
  | some acc => simp
  | none => simp [DbAccount.newNotExisting]

theorem apply_account_storage_dbSlot_true (s : MarketState) (a : Nat) (d : AccountState)
    (only_new : Bool) (x : Nat) :
    storageAt (s.apply_account_storage a d true only_new) a x =
      match lastVal d.storage x with | some v => some v | none => storageAt s a x := by
  unfold MarketState.apply_account_storage storageAt
  simp only [if_true]
  exact insFold_dbSlot d.storage s.state_db a x

theorem apply_account_storage_dbSlot_false (s : MarketState) (a : Nat) (d : AccountState)
    (only_new : Bool) (x : Nat) :
    storageAt (s.apply_account_storage a d false only_new) a x =
      match lastVal (d.storage.filter (fun sv =>
          slotCond only_new ((s.state_db.accounts a).getD DbAccount.newNotExisting) sv.1)) x with
      | some v => some v
      | none => storageAt s a x := by
  unfold MarketState.apply_account_storage storageAt
  simp only [Bool.false_eq_true, if_false]
  rw [loadAccount_snd]
  have hstep :
      (fun (db : InMemoryDB) (sv : Nat × Nat) =>
        let is_slot := (((s.state_db.accounts a).getD DbAccount.newNotExisting).storage sv.1).isSome
        if is_slot && !only_new then insertAccountStorage db a sv.1 sv.2
        else if !is_slot && only_new then insertAccountStorage db a sv.1 sv.2
        else db) =
      (fun (db : InMemoryDB) (sv : Nat × Nat) =>
        if slotCond only_new ((s.state_db.accounts a).getD DbAccount.newNotExisting) sv.1 then
          insertAccountStorage db a sv.1 sv.2
        else db) := by
    funext db sv
    cases hs : (((s.state_db.accounts a).getD DbAccount.newNotExisting).storage sv.1).isSome <;>
      cases only_new <;> simp [slotCond, hs]
  simp only [hstep]
  rw [foldl_filter_cond, insFold_dbSlot]
  rcases h : lastVal (d.storage.filter (fun sv =>
      slotCond only_new ((s.state_db.accounts a).getD DbAccount.newNotExisting) sv.1)) x with _ | v
  · exact loadAccount_dbSlot s.state_db a a x
  · rfl

theorem slotCond_iff (s : MarketState) (a : Nat) (only_new : Bool) (k : Nat) :
    slotCond only_new ((s.state_db.accounts a).getD DbAccount.newNotExisting) k = true ↔
      ((s.is_slot a k = true ∧ only_new = false) ∨
       (s.is_slot a k = false ∧ only_new = true)) := by
  rw [is_slot_eq_snap]
  cases hs : (((s.state_db.accounts a).getD DbAccount.newNotExisting).storage k).isSome <;>
    cases only_new <;> simp [slotCond, hs]

/-- C4: the per-slot write matrix of `apply_account_storage`.  With
`insert` every diff slot is written with the diff's value; with
`insert = false` a diff slot is written iff it was already present and
`only_new = false`, or absent and `only_new = true`; slots of the account
not mentioned in the diff keep their previous values. -/
theorem apply_account_storage_spec (s : MarketState) (address : Nat) (d : AccountState)
    (insert only_new : Bool) (hnd : (d.storage.map Prod.fst).Nodup) :
    (∀ sv ∈ d.storage,
      storageAt (s.apply_account_storage address d insert only_new) address sv.1 =
        if insert = true then some sv.2
        else if (s.is_slot address sv.1 = true ∧ only_new = false) ∨
                (s.is_slot address sv.1 = false ∧ only_new = true) then some sv.2
        else storageAt s address sv.1) ∧
    (∀ slot, slot ∉ d.storage.map Prod.fst →
      storageAt (s.apply_account_storage address d insert only_new) address slot =
        storageAt s address slot) := by
  constructor
  · intro sv hm
    cases insert with
    | true =>
      rw [apply_account_storage_dbSlot_true, lastVal_of_nodup d.storage sv hnd hm]
      simp
    | false =>
      rw [apply_account_storage_dbSlot_false]
      simp only [Bool.false_eq_true, if_false]
      by_cases hc : ((s.is_slot address sv.1 = true ∧ only_new = false) ∨
          (s.is_slot address sv.1 = false ∧ only_new = true))
      · rw [if_pos hc]
        have hcond := (slotCond_iff s address only_new sv.1).mpr hc
        have hmem : sv ∈ d.storage.filter (fun sv =>
            slotCond only_new ((s.state_db.accounts address).getD DbAccount.newNotExisting) sv.1) :=
          List.mem_filter.mpr ⟨hm, hcond⟩
        have hnd' : ((d.storage.filter (fun sv =>
            slotCond only_new ((s.state_db.accounts address).getD DbAccount.newNotExisting) sv.1)).map
              Prod.fst).Nodup :=
          List.Nodup.sublist (List.Sublist.map Prod.fst (List.filter_sublist _)) hnd
        rw [lastVal_of_nodup _ sv hnd' hmem]
      · rw [if_neg hc]
        have hcond : slotCond only_new
            ((s.state_db.accounts address).getD DbAccount.newNotExisting) sv.1 = false := by
          cases hcv : slotCond only_new
              ((s.state_db.accounts address).getD DbAccount.newNotExisting) sv.1 with
          | true => exact absurd ((slotCond_iff s address only_new sv.1).mp hcv) hc
          | false => rfl
        have hnm := key_not_mem_filter
          (slotCond only_new ((s.state_db.accounts address).getD DbAccount.newNotExisting))
          d.storage sv.1 hcond
        rw [(lastVal_eq_none_iff _ _).mpr hnm]
  · intro slot hs
    cases insert with
    | true =>
      rw [apply_account_storage_dbSlot_true, (lastVal_eq_none_iff _ _).mpr hs]
    | false =>
      rw [apply_account_storage_dbSlot_false]
      have hs' : slot ∉ (d.storage.filter (fun sv =>
          slotCond only_new ((s.state_db.accounts address).getD DbAccount.newNotExisting) sv.1)).map
            Prod.fst := by
        intro hmem
        obtain ⟨sv, hsv, hk⟩ := List.mem_map.mp hmem
        exact hs (List.mem_map.mpr ⟨sv, (List.mem_filter.mp hsv).1, hk⟩)
      rw [(lastVal_eq_none_iff _ _).mpr hs']

/-- C4 (witness): the matrix at a concrete state and diff — account 7 has
slot 1; the diff mentions slots 1 and 2; with `insert=false,
only_new=false` slot 1 is overwritten and slot 2 skipped, and slot 5 is
untouched. -/
theorem apply_account_storage_spec_witness :
    ((1 : Nat), (20 : Nat)) ∈ s1Diff.storage ∧
    (5 : Nat) ∉ s1Diff.storage.map Prod.fst ∧
    storageAt (roStart.apply_account_storage 7 s1Diff false false) 7 1 =
      (if (false = true) then some 20
       else if (roStart.is_slot 7 1 = true ∧ false = false) ∨
               (roStart.is_slot 7 1 = false ∧ false = true) then some 20
       else storageAt roStart 7 1) ∧
    storageAt (roStart.apply_account_storage 7 s1Diff false false) 7 5 =
      storageAt roStart 7 5 := by
  refine ⟨by decide, by decide, ?_, ?_⟩
  · exact (apply_account_storage_spec roStart 7 s1Diff false false (by decide)).1 (1, 20) (by decide)
  · exact (apply_account_storage_spec roStart 7 s1Diff false false (by decide)).2 5 (by decide)

/-! ### Claim theorem: the account-info merge -/

theorem getD_code_eq_codeAt (s : MarketState) (a : Nat) :
    ((s.state_db.accounts a).getD DbAccount.newNotExisting).info.code = codeAt s a := by
  unfold codeAt
  cases h : s.state_db.accounts a <;> simp [DbAccount.newNotExisting]

/-- C8: whenever the insert/only_new/marker guard lets
`apply_account_info_btree` apply the account-info update, balance and
nonce are overwritten from the diff (absent fields default to 0), the code
becomes the diff's code unless the diff's code is absent or shorter than 2
bytes (in which case the existing code is retained), and the marker ends
up `Touched`. -/
theorem apply_account_info_btree_spec (s : MarketState) (address : Nat) (d : AccountState)
    (insert only_new : Bool)
    (hc : infoCond insert only_new
        ((s.state_db.accounts address).getD DbAccount.newNotExisting).account_state = true) :
    balanceAt (s.apply_account_info_btree address d insert only_new) address = d.balance.getD 0 ∧
    nonceAt (s.apply_account_info_btree address d insert only_new) address = d.nonce.getD 0 ∧
    markerAt (s.apply_account_info_btree address d insert only_new) address = .Touched ∧
    (d.code = none →
      codeAt (s.apply_account_info_btree address d insert only_new) address = codeAt s address) ∧
    (∀ c, d.code = some c → c.length < 2 →
      codeAt (s.apply_account_info_btree address d insert only_new) address = codeAt s address) ∧
    (∀ c, d.code = some c → 2 ≤ c.length →
      codeAt (s.apply_account_info_btree address d insert only_new) address = some c) := by
  have hacc : (s.apply_account_info_btree address d insert only_new).state_db.accounts address =
      some (infoStep insert only_new d (s.state_db.accounts address)) := by
    rw [apply_account_info_btree_accounts]
    simp
  have hstep : infoStep insert only_new d (s.state_db.accounts address) =
      { (s.state_db.accounts address).getD DbAccount.newNotExisting with
          info :=
            { balance := d.balance.getD 0
              nonce := d.nonce.getD 0
              code := mergeCode d.code
                (((s.state_db.accounts address).getD DbAccount.newNotExisting)).info.code }
          account_state := .Touched } := by
    rw [infoStep_eq, if_pos hc]
  have hcode : codeAt (s.apply_account_info_btree address d insert only_new) address =
      mergeCode d.code (((s.state_db.accounts address).getD DbAccount.newNotExisting)).info.code := by
    unfold codeAt
    rw [hacc, hstep]
  refine ⟨?_, ?_, ?_, ?_, ?_, ?_⟩
  · unfold balanceAt
    rw [hacc, hstep]
  · unfold nonceAt
    rw [hacc, hstep]
  · unfold markerAt
    rw [hacc, hstep]
  · intro hnone
    rw [hcode, hnone, getD_code_eq_codeAt]
    rfl
  · intro c hsome hlen
    rw [hcode, hsome]
    show (if c.length < 2 then _ else some c) = _
    rw [if_pos hlen, getD_code_eq_codeAt]
  · intro c hsome hlen
    rw [hcode, hsome]
    show (if c.length < 2 then _ else some c) = _
    rw [if_neg (by omega)]

/-- C8 (witness): the info merge at a concrete input — account 7 is
`Touched`, the guard holds for `insert=false, only_new=false`, the diff
carries balance 3, nonce 4 and a 3-byte code. -/
theorem apply_account_info_btree_spec_witness :
    balanceAt (roStart.apply_account_info_btree 7 c8Diff false false) 7 = c8Diff.balance.getD 0 ∧
    nonceAt (roStart.apply_account_info_btree 7 c8Diff false false) 7 = c8Diff.nonce.getD 0 ∧
    markerAt (roStart.apply_account_info_btree 7 c8Diff false false) 7 = .Touched ∧
    (c8Diff.code = none →
      codeAt (roStart.apply_account_info_btree 7 c8Diff false false) 7 = codeAt roStart 7) ∧
    (∀ c, c8Diff.code = some c → c.length < 2 →
      codeAt (roStart.apply_account_info_btree 7 c8Diff false false) 7 = codeAt roStart 7) ∧
    (∀ c, c8Diff.code = some c → 2 ≤ c.length →
      codeAt (roStart.apply_account_info_btree 7 c8Diff false false) 7 = some c) :=
  apply_account_info_btree_spec roStart 7 c8Diff false false (by decide)

/-! ### Claim theorem: `merge_db` -/

theorem lookup_of_mem_nodup {β : Type} (u : List (Nat × β)) (av : Nat × β)
    (hnd : (u.map Prod.fst).Nodup) (hm : av ∈ u) : u.lookup av.1 = some av.2 := by
  induction u with
  | nil => simp at hm
  | cons hd t ih =>
    simp only [List.map_cons, List.nodup_cons] at hnd
    rcases List.mem_cons.mp hm with hh | hh
    · subst hh
      exact lookup_cons_self av t av.1 rfl
    · have hne : av.1 ≠ hd.1 := by
        intro he
        exact hnd.1 (he ▸ List.mem_map.mpr ⟨av, hh, rfl⟩)
      rw [lookup_cons_ne hd t av.1 hne]
      exact ih hnd.2 hh

theorem mergeFold_accounts (l : List (Nat × Nat)) (db : InMemoryDB) (a : Nat) (acc : DbAccount)
    (h : db.accounts a = some acc) :
    (l.foldl (fun db cv =>
        match dbSlot db a cv.1 with
        | none => insertAccountStorage db a cv.1 cv.2
        | some w => if w ≠ cv.2 then insertAccountStorage db a cv.1 cv.2 else db) db).accounts =
      updMap db.accounts a (some { acc with storage := writeList l acc.storage }) := by
  induction l generalizing db acc with
  | nil =>
    simp only [List.foldl_nil, writeList_nil]
    exact (updMap_eq_self _ _ _ h).symm
  | cons cv t ih =>
    simp only [List.foldl_cons]
    have hslot : dbSlot db a cv.1 = acc.storage cv.1 := by
      unfold dbSlot
      rw [h]
    have hins : (insertAccountStorage db a cv.1 cv.2).accounts =
        updMap db.accounts a (some { acc with storage := updMap acc.storage cv.1 (some cv.2) }) := by
      rw [insertAccountStorage_accounts_fun, h]
      rfl
    have hins_at : (insertAccountStorage db a cv.1 cv.2).accounts a =
        some { acc with storage := updMap acc.storage cv.1 (some cv.2) } := by
      rw [hins, updMap_same]
    rcases hv : acc.storage cv.1 with _ | w
    · rw [hslot, hv]
      show (List.foldl _ (insertAccountStorage db a cv.1 cv.2) t).accounts = _
      rw [ih _ _ hins_at, hins, updMap_updMap, writeList_cons]
    · rw [hslot, hv]
      show (List.foldl _ (if w ≠ cv.2 then insertAccountStorage db a cv.1 cv.2 else db) t).accounts = _
      by_cases hw : w ≠ cv.2
      · rw [if_pos hw, ih _ _ hins_at, hins, updMap_updMap, writeList_cons]
      · rw [if_neg hw]
        push_neg at hw
        have hself : updMap acc.storage cv.1 (some cv.2) = acc.storage := by
          apply updMap_eq_self
          rw [hv, hw]
        rw [ih _ _ h, writeList_cons, hself]

theorem merge_db_single_accounts (s : MarketState) (av : Nat × DbAccountView) (x : Nat) :
    (s.merge_db [av]).state_db.accounts x =
      if x = av.1 then some (mergeAccount (s.state_db.accounts av.1) av.2)
      else s.state_db.accounts x := by
  unfold MarketState.merge_db
  simp only [List.foldl_cons, List.foldl_nil]
  by_cases hacc : s.is_account av.1
  · have hsome : ∃ acc, s.state_db.accounts av.1 = some acc := by
      unfold MarketState.is_account at hacc
      exact Option.isSome_iff_exists.mp hacc
    obtain ⟨acc, hacc'⟩ := hsome
    simp only [hacc, Bool.not_true, Bool.false_eq_true, if_false]
    rw [mergeFold_accounts av.2.storage s.state_db av.1 acc hacc']
    rw [hacc']
    show updMap s.state_db.accounts av.1 (some { acc with storage := writeList av.2.storage acc.storage }) x = _
    unfold mergeAccount
    by_cases hx : x = av.1 <;> simp [updMap, hx]
  · have hnone : s.state_db.accounts av.1 = none := by
      unfold MarketState.is_account at hacc
      exact Option.not_isSome_iff_eq_none.mp (by simpa using hacc)
    simp only [hacc, Bool.not_false, if_true]
    have hbase : (insertAccountInfo s.state_db av.1 av.2.info).accounts av.1 =
        some { DbAccount.defaultAccount with info := av.2.info } := by
      rw [insertAccountInfo_accounts, if_pos rfl, hnone]
      rfl
    rw [mergeFold_accounts av.2.storage _ av.1 _ hbase]
    show updMap (insertAccountInfo s.state_db av.1 av.2.info).accounts av.1 _ x = _
    rw [hnone]
    unfold mergeAccount
    by_cases hx : x = av.1
    · simp [updMap, hx]
    · simp only [updMap, hx, if_false]
      rw [insertAccountInfo_accounts, if_neg hx]

theorem merge_db_cons (s : MarketState) (av : Nat × DbAccountView)
    (t : List (Nat × DbAccountView)) :
    s.merge_db (av :: t) = (s.merge_db [av]).merge_db t := by
  unfold MarketState.merge_db
  simp

theorem merge_db_read_only (s : MarketState) (other : List (Nat × DbAccountView)) :
    (s.merge_db other).read_only_cells = s.read_only_cells := by
  unfold MarketState.merge_db
  induction other generalizing s with
  | nil => rfl
  | cons av t ih =>
    rw [List.foldl_cons, ih]
    by_cases hacc : s.is_account av.1 <;> simp [hacc]

theorem merge_db_accounts (s : MarketState) (other : List (Nat × DbAccountView))
    (hao : (other.map Prod.fst).Nodup) (x : Nat) :
    (s.merge_db other).state_db.accounts x =
      match other.lookup x with
      | some view => some (mergeAccount (s.state_db.accounts x) view)
      | none => s.state_db.accounts x := by
  induction other generalizing s with
  | nil => rfl
  | cons av t ih =>
    simp only [List.map_cons, List.nodup_cons] at hao
    rw [merge_db_cons, ih _ hao.2]
    by_cases hx : x = av.1
    · have hnone : t.lookup x = none := by
        apply lookup_none_of_not_mem
        rw [hx]
        exact hao.1
      rw [lookup_cons_self av t x hx, hnone, merge_db_single_accounts, if_pos hx]
      subst hx
      rfl
    · rw [lookup_cons_ne av t x hx]
      have hframe : (s.merge_db [av]).state_db.accounts x = s.state_db.accounts x := by
        rw [merge_db_single_accounts, if_neg hx]
      rw [hframe]

theorem mergeAccount_info (acc0 : Option DbAccount) (view : DbAccountView) :
    (mergeAccount acc0 view).info =
      match acc0 with
      | some acc => acc.info
      | none => view.info := by
  unfold mergeAccount
  cases acc0 <;> rfl

theorem mergeAccount_storage (acc0 : Option DbAccount) (view : DbAccountView) (slot : Nat) :
    (mergeAccount acc0 view).storage slot =
      match lastVal view.storage slot with
      | some v => some v
      | none =>
        match acc0 with
        | some acc => acc.storage slot
        | none => none := by
  unfold mergeAccount
  cases acc0 with
  | some acc =>
    show writeList view.storage acc.storage slot = _
    rw [writeList_apply]
  | none =>
    show writeList view.storage DbAccount.defaultAccount.storage slot = _
    rw [writeList_apply]
    rcases h : lastVal view.storage slot with _ | v <;> rfl

/-- C7: after `merge_db(other)` every account of `other` is present; info
of accounts already present locally is unchanged while absent accounts get
the incoming info; every storage cell of `other` holds the incoming value;
and accounts and slots not mentioned in `other` are untouched. -/
theorem merge_db_spec (s : MarketState) (other : List (Nat × DbAccountView))
    (hao : (other.map Prod.fst).Nodup) :
    (∀ av ∈ other, (s.merge_db other).is_account av.1 = true) ∧
    (∀ a, s.is_account a = true → infoAt (s.merge_db other) a = infoAt s a) ∧
    (∀ av ∈ other, s.is_account av.1 = false →
      infoAt (s.merge_db other) av.1 = some av.2.info) ∧
    (∀ av ∈ other, (av.2.storage.map Prod.fst).Nodup →
      ∀ cv ∈ av.2.storage, storageAt (s.merge_db other) av.1 cv.1 = some cv.2) ∧
    (∀ a, a ∉ other.map Prod.fst →
      (s.merge_db other).state_db.accounts a = s.state_db.accounts a) ∧
    (∀ av ∈ other, ∀ slot, slot ∉ av.2.storage.map Prod.fst →
      storageAt (s.merge_db other) av.1 slot = storageAt s av.1 slot) := by
  refine ⟨?_, ?_, ?_, ?_, ?_, ?_⟩
  · intro av hm
    unfold MarketState.is_account
    rw [merge_db_accounts s other hao, lookup_of_mem_nodup other av hao hm]
    rfl
  · intro a hpres
    unfold infoAt
    rw [merge_db_accounts s other hao]
    rcases hl : other.lookup a with _ | view
    · rfl
    · obtain ⟨acc, hacc⟩ := Option.isSome_iff_exists.mp hpres
      rw [hacc]
      show some (mergeAccount (some acc) view).info = some acc.info
      rw [mergeAccount_info]
  · intro av hm habs
    unfold infoAt
    rw [merge_db_accounts s other hao, lookup_of_mem_nodup other av hao hm]
    have hnone : s.state_db.accounts av.1 = none := by
      unfold MarketState.is_account at habs
      exact Option.not_isSome_iff_eq_none.mp (by simp [habs])
    rw [hnone]
    show some (mergeAccount none av.2).info = _
    rw [mergeAccount_info]
  · intro av hm hnd cv hcv
    unfold storageAt dbSlot
    rw [merge_db_accounts s other hao, lookup_of_mem_nodup other av hao hm]
    show (mergeAccount (s.state_db.accounts av.1) av.2).storage cv.1 = some cv.2
    rw [mergeAccount_storage, lastVal_of_nodup av.2.storage cv hnd hcv]
  · intro a hnm
    rw [merge_db_accounts s other hao, lookup_none_of_not_mem other a hnm]
  · intro av hm slot hns
    unfold storageAt dbSlot
    rw [merge_db_accounts s other hao, lookup_of_mem_nodup other av hao hm]
    show (mergeAccount (s.state_db.accounts av.1) av.2).storage slot = _
    rw [mergeAccount_storage, (lastVal_eq_none_iff _ _).mpr hns]

/-- C7 (witness): `merge_db` at a concrete state and source — account 7
is already present (info kept, cell 1 overwritten to 77, cell 3 added),
account 8 is new (info inserted, cell 2 = 5), account 9 and slot 5 of
account 7 are untouched. -/
theorem merge_db_spec_witness :
    (roStart.merge_db c7Other).is_account 8 = true ∧
    infoAt (roStart.merge_db c7Other) 7 = infoAt roStart 7 ∧
    infoAt (roStart.merge_db c7Other) 8 = some { balance := 60, nonce := 2, code := none } ∧
    storageAt (roStart.merge_db c7Other) 7 1 = some 77 ∧
    (roStart.merge_db c7Other).state_db.accounts 9 = roStart.state_db.accounts 9 ∧
    storageAt (roStart.merge_db c7Other) 7 5 = storageAt roStart 7 5 := by
  refine ⟨?_, ?_, ?_, ?_, ?_, ?_⟩
  · exact (merge_db_spec roStart c7Other (by decide)).1
      (8, { info := { balance := 60, nonce := 2, code := none }, storage := [(2, 5)] }) (by decide)
  · exact (merge_db_spec roStart c7Other (by decide)).2.1 7 (by decide)
  · exact (merge_db_spec roStart c7Other (by decide)).2.2.1
      (8, { info := { balance := 60, nonce := 2, code := none }, storage := [(2, 5)] })
      (by decide) (by decide)
  · exact (merge_db_spec roStart c7Other (by decide)).2.2.2.1
      (7, { info := { balance := 50, nonce := 1, code := none }, storage := [(1, 77), (3, 44)] })
      (by decide) (by decide) (1, 77) (by decide)
  · exact (merge_db_spec roStart c7Other (by decide)).2.2.2.2.1 9 (by decide)
  · exact (merge_db_spec roStart c7Other (by decide)).2.2.2.2.2
      (7, { info := { balance := 50, nonce := 1, code := none }, storage := [(1, 77), (3, 44)] })
      (by decide) 5 (by decide)

/-! ### Claim theorems: pool wrapper identity and the empty pool -/

/-- C6: `PoolWrapper` equality (`PartialEq`) holds iff the wrapped pools'
addresses are equal; the `Hash` impl feeds only the address to the hasher,
so equal wrappers hash alike under every hasher; `Ord::cmp` is exactly the
comparison of the addresses, characterised as a total order by address
ascending. -/
theorem poolwrapper_eq_hash_ord_spec (w1 w2 : PoolWrapper) (h : Nat → Nat) :
    (PoolWrapper.beq w1 w2 = true ↔ w1.pool.get_address = w2.pool.get_address) ∧
    (PoolWrapper.beq w1 w2 = true →
      PoolWrapper.hashWith h w1 = PoolWrapper.hashWith h w2) ∧
    PoolWrapper.cmp w1 w2 = compare w1.pool.get_address w2.pool.get_address ∧
    (PoolWrapper.cmp w1 w2 = .eq ↔ PoolWrapper.beq w1 w2 = true) ∧
    (PoolWrapper.cmp w1 w2 = .lt ↔ w1.pool.get_address < w2.pool.get_address) ∧
    (PoolWrapper.cmp w1 w2 = .gt ↔ w2.pool.get_address < w1.pool.get_address) := by
  refine ⟨beq_iff_eq, ?_, rfl, ?_, Nat.compare_eq_lt, Nat.compare_eq_gt⟩
  · intro hb
    unfold PoolWrapper.hashWith
    rw [beq_iff_eq.mp hb]
  · rw [show PoolWrapper.cmp w1 w2 = compare w1.pool.get_address w2.pool.get_address from rfl,
      Nat.compare_eq_eq]
    exact beq_iff_eq.symm

/-- C6 (witness): the characterisation at two concrete wrappers over the
same address 3 (but different pool objects) and the identity hasher. -/
theorem poolwrapper_eq_hash_ord_spec_witness :
    (PoolWrapper.beq (PoolWrapper.empty 3) (PoolWrapper.new (EmptyPool.new 3).toPool) = true ↔
      (PoolWrapper.empty 3).pool.get_address =
        (PoolWrapper.new (EmptyPool.new 3).toPool).pool.get_address) ∧
    (PoolWrapper.beq (PoolWrapper.empty 3) (PoolWrapper.new (EmptyPool.new 3).toPool) = true →
      PoolWrapper.hashWith (fun x => x) (PoolWrapper.empty 3) =
        PoolWrapper.hashWith (fun x => x) (PoolWrapper.new (EmptyPool.new 3).toPool)) ∧
    PoolWrapper.cmp (PoolWrapper.empty 3) (PoolWrapper.new (EmptyPool.new 3).toPool) =
      compare (PoolWrapper.empty 3).pool.get_address
        (PoolWrapper.new (EmptyPool.new 3).toPool).pool.get_address ∧
    (PoolWrapper.cmp (PoolWrapper.empty 3) (PoolWrapper.new (EmptyPool.new 3).toPool) = .eq ↔
      PoolWrapper.beq (PoolWrapper.empty 3) (PoolWrapper.new (EmptyPool.new 3).toPool) = true) ∧
    (PoolWrapper.cmp (PoolWrapper.empty 3) (PoolWrapper.new (EmptyPool.new 3).toPool) = .lt ↔
      (PoolWrapper.empty 3).pool.get_address <
        (PoolWrapper.new (EmptyPool.new 3).toPool).pool.get_address) ∧
    (PoolWrapper.cmp (PoolWrapper.empty 3) (PoolWrapper.new (EmptyPool.new 3).toPool) = .gt ↔
      (PoolWrapper.new (EmptyPool.new 3).toPool).pool.get_address <
        (PoolWrapper.empty 3).pool.get_address) :=
  poolwrapper_eq_hash_ord_spec (PoolWrapper.empty 3) (PoolWrapper.new (EmptyPool.new 3).toPool)
    (fun x => x)

/-- C10: a pool built by `PoolWrapper::empty` wraps `EmptyPool`, whose
swap calculators always return `Err("NOT_IMPLEMENTED")` (so no input ever
yields a successful simulation), whose `can_flash_swap` is `false`, and
whose `get_state_required` is the empty `RequiredState`. -/
theorem empty_pool_never_succeeds (pool_address : Nat) (state : InMemoryDB) (env : Env)
    (token_address_from token_address_to amount : Nat) :
    (PoolWrapper.empty pool_address).pool.calculate_out_amount state env
        token_address_from token_address_to amount = Except.error "NOT_IMPLEMENTED" ∧
    (PoolWrapper.empty pool_address).pool.calculate_in_amount state env
        token_address_from token_address_to amount = Except.error "NOT_IMPLEMENTED" ∧
    ((PoolWrapper.empty pool_address).pool.calculate_out_amount state env
        token_address_from token_address_to amount).isOk = false ∧
    ((PoolWrapper.empty pool_address).pool.calculate_in_amount state env
        token_address_from token_address_to amount).isOk = false ∧
    (PoolWrapper.empty pool_address).pool.can_flash_swap = false ∧
    (PoolWrapper.empty pool_address).pool.get_state_required = Except.ok RequiredState.new ∧
    RequiredState.new.calls = [] ∧ RequiredState.new.slots = [] :=
  ⟨rfl, rfl, rfl, rfl, rfl, rfl, rfl, rfl⟩

/-! ### Claim theorem: the nonce-and-balance monitor -/

theorem process_tx_from_accounts (st : AccountNonceAndBalanceState) (tx : Transaction)
    (acc : NonceBalance) (hmon : st.is_monitored tx.from_ = true)
    (hacc : st.accounts tx.from_ = some acc)
    (hne : ∀ t, tx.to_ = some t → t ≠ tx.from_) :
    (nonce_and_balance_process_tx st tx).accounts tx.from_ =
      some ((acc.sub_balance 0
        (((tx.max_fee_per_gas.getD 0 + tx.max_priority_fee_per_gas.getD 0) * tx.gas + tx.value)
          % U128_LIMIT)).set_nonce tx.nonce) := by
  unfold nonce_and_balance_process_tx
  simp only [hmon, hacc, if_true]
  rcases hto : tx.to_ with _ | t
  · exact updMap_same _ _ _
  · have hneq : t ≠ tx.from_ := hne t hto
    have hfrom : (st.setAccount tx.from_
        ((acc.sub_balance 0
          (((tx.max_fee_per_gas.getD 0 + tx.max_priority_fee_per_gas.getD 0) * tx.gas + tx.value)
            % U128_LIMIT)).set_nonce tx.nonce)).accounts tx.from_ =
        some ((acc.sub_balance 0
          (((tx.max_fee_per_gas.getD 0 + tx.max_priority_fee_per_gas.getD 0) * tx.gas + tx.value)
            % U128_LIMIT)).set_nonce tx.nonce) :=
      updMap_same _ _ _
    by_cases hm2 : (st.setAccount tx.from_
        ((acc.sub_balance 0
          (((tx.max_fee_per_gas.getD 0 + tx.max_priority_fee_per_gas.getD 0) * tx.gas + tx.value)
            % U128_LIMIT)).set_nonce tx.nonce)).is_monitored t
    · simp only [hm2, if_true]
      rcases hacct : (st.setAccount tx.from_
          ((acc.sub_balance 0
            (((tx.max_fee_per_gas.getD 0 + tx.max_priority_fee_per_gas.getD 0) * tx.gas + tx.value)
              % U128_LIMIT)).set_nonce tx.nonce)).accounts t with _ | accT
      · simp only [hacct]
        exact hfrom
      · simp only [hacct]
        exact (updMap_other _ _ _ _ (fun hh => hneq hh.symm)).trans hfrom
    · simp only [hm2]
      simp only [Bool.false_eq_true, if_false]
      exact hfrom

theorem process_tx_to_accounts (st : AccountNonceAndBalanceState) (tx : Transaction)
    (t : Nat) (accT : NonceBalance) (hto : tx.to_ = some t) (hne : t ≠ tx.from_)
    (hmon2 : st.is_monitored t = true) (haccT : st.accounts t = some accT) :
    (nonce_and_balance_process_tx st tx).accounts t = some (accT.add_balance 0 tx.value) := by
  unfold nonce_and_balance_process_tx
  rcases hm1 : st.is_monitored tx.from_ with _ | _
  case false =>
    simp only [hm1, Bool.false_eq_true, if_false, hto, hmon2, if_true, haccT]
    exact updMap_same _ _ _
  case true =>
    simp only [hm1, if_true]
    rcases hacc : st.accounts tx.from_ with _ | accF
    · simp only [hacc, hto, hmon2, if_true, haccT]
      exact updMap_same _ _ _
    · simp only [hacc, hto]
      have hmon2' : (st.setAccount tx.from_
          ((accF.sub_balance 0
            (((tx.max_fee_per_gas.getD 0 + tx.max_priority_fee_per_gas.getD 0) * tx.gas + tx.value)
              % U128_LIMIT)).set_nonce tx.nonce)).is_monitored t = true := hmon2
      have haccT' : (st.setAccount tx.from_
          ((accF.sub_balance 0
            (((tx.max_fee_per_gas.getD 0 + tx.max_priority_fee_per_gas.getD 0) * tx.gas + tx.value)
              % U128_LIMIT)).set_nonce tx.nonce)).accounts t = some accT :=
        (updMap_other _ _ _ _ hne).trans haccT
      simp only [hmon2', if_true, haccT']
      exact updMap_same _ _ _

/-- C5: processing one confirmed transaction of a `BlockTxUpdate` with
full transactions (`nonce_and_balance_process_block` folds this step):
when `from` is monitored and tracked, its ETH balance decreases by exactly
`(max_fee_per_gas + max_priority_fee_per_gas) × gas + value` and its nonce
becomes `tx.nonce`; when `to` is monitored and tracked, its ETH balance
increases by exactly `value` (and its nonce is untouched).  The fee
hypotheses pin the `unwrap()`ed fields, keep the `u128` arithmetic from
wrapping, and keep the balance subtraction from truncating; the
`to ≠ from` hypotheses separate the two effects. -/
theorem nonce_and_balance_monitor_tx_spec (st : AccountNonceAndBalanceState) (tx : Transaction)
    (mf mp : Nat) (hmf : tx.max_fee_per_gas = some mf)
    (hmp : tx.max_priority_fee_per_gas = some mp)
    (hofl : (mf + mp) * tx.gas + tx.value < U128_LIMIT) :
    (∀ acc, st.is_monitored tx.from_ = true → st.accounts tx.from_ = some acc →
      (∀ t, tx.to_ = some t → t ≠ tx.from_) →
      (mf + mp) * tx.gas + tx.value ≤ acc.balances 0 →
      ∃ acc', (nonce_and_balance_process_tx st tx).accounts tx.from_ = some acc' ∧
        acc'.balances 0 = acc.balances 0 - ((mf + mp) * tx.gas + tx.value) ∧
        acc'.nonce = tx.nonce) ∧
    (∀ t accT, tx.to_ = some t → t ≠ tx.from_ → st.is_monitored t = true →
      st.accounts t = some accT →
      ∃ acc', (nonce_and_balance_process_tx st tx).accounts t = some acc' ∧
        acc'.balances 0 = accT.balances 0 + tx.value ∧
        acc'.nonce = accT.nonce) := by
  have hmod : ((tx.max_fee_per_gas.getD 0 + tx.max_priority_fee_per_gas.getD 0) * tx.gas
      + tx.value) % U128_LIMIT = (mf + mp) * tx.gas + tx.value := by
    rw [hmf, hmp]
    exact Nat.mod_eq_of_lt hofl
  constructor
  · intro acc hmon hacc hne hle
    refine ⟨_, process_tx_from_accounts st tx acc hmon hacc hne, ?_, rfl⟩
    have hb : ((acc.sub_balance 0
        (((tx.max_fee_per_gas.getD 0 + tx.max_priority_fee_per_gas.getD 0) * tx.gas + tx.value)
          % U128_LIMIT)).set_nonce tx.nonce).balances 0 =
        acc.balances 0 -
          (((tx.max_fee_per_gas.getD 0 + tx.max_priority_fee_per_gas.getD 0) * tx.gas + tx.value)
            % U128_LIMIT) := rfl
    rw [hb, hmod]
  · intro t accT hto hne hmon2 haccT
    refine ⟨_, process_tx_to_accounts st tx t accT hto hne hmon2 haccT, rfl, rfl⟩

/-- C5 (witness): the monitor effects at a concrete state and transaction
(sender 5 with balance 1000, recipient 6 with balance 50; fees 3 and 2,
gas 10, value 7, nonce 42). -/
theorem nonce_and_balance_monitor_tx_spec_witness :
    (∃ acc', (nonce_and_balance_process_tx wSt wTx).accounts wTx.from_ = some acc' ∧
      acc'.balances 0 = wAccFrom.balances 0 - ((3 + 2) * wTx.gas + wTx.value) ∧
      acc'.nonce = wTx.nonce) ∧
    (∃ acc', (nonce_and_balance_process_tx wSt wTx).accounts 6 = some acc' ∧
      acc'.balances 0 = wAccTo.balances 0 + wTx.value ∧
      acc'.nonce = wAccTo.nonce) := by
  obtain ⟨h1, h2⟩ := nonce_and_balance_monitor_tx_spec wSt wTx 3 2 rfl rfl (by decide)
  constructor
  · exact h1 wAccFrom (by decide) rfl
      (by
        intro t ht
        have ht' : some 6 = some t := ht
        cases ht'
        decide)
      (by decide)
  · exact h2 6 wAccTo rfl (by decide) (by decide) rfl
